import Mathlib

/-!
# sun_traj_lib: fixed-axis rotation generator

A shallow embedding of `src/sun_traj_lib/Rotation_Const_Axis_Traj.cpp`.

* `double` is read as an element of a linearly ordered field `R` (exact
  arithmetic, no rounding, no NaN); every definition is computable for a
  computable `R` such as `ℚ`.
* The numeric library the sources call (TooN vectors, the `UnitQuaternion`
  class, `<cmath>`) is not part of the repository.  Its algebraic operations
  are modelled from the specification; `sqrt`, `cos`, `sin`, the axis-angle
  extraction and the rotation-matrix conversion are parameters, collected in
  `MathToolbox`.
* The abstract class `Scalar_Traj_Interface` is a table of virtual methods
  over a type `σ` of scalar-generator objects.
-/

namespace sun

/-! ## TooN vectors -/

/-- Modelled from the spec: `TooN::Vector<3>`, three coordinates `v[0]`, `v[1]`, `v[2]`. -/
@[ext] structure Vector3 (R : Type) where
  x : R
  y : R
  z : R
deriving DecidableEq

namespace Vector3

variable {R : Type} [LinearOrderedField R]

/-- Modelled from the spec: `TooN::Zeros`, the zero vector. -/
def Zeros : Vector3 R := ⟨0, 0, 0⟩

/-- Modelled from the spec: `double * Vector<3>`, the scalar multiple. -/
def smul (k : R) (v : Vector3 R) : Vector3 R := ⟨k * v.x, k * v.y, k * v.z⟩

/-- Modelled from the spec: `Vector<3> + Vector<3>`. -/
def add (v w : Vector3 R) : Vector3 R := ⟨v.x + w.x, v.y + w.y, v.z + w.z⟩

/-- Modelled from the spec: `Vector<3> * Vector<3>`, the inner product. -/
def dot (v w : Vector3 R) : R := v.x * w.x + v.y * w.y + v.z * w.z

/-- Modelled from the spec: `Vector<3> ^ Vector<3>`, the cross product. -/
def cross (v w : Vector3 R) : Vector3 R :=
  ⟨v.y * w.z - v.z * w.y, v.z * w.x - v.x * w.z, v.x * w.y - v.y * w.x⟩

end Vector3

/-! ## Unit quaternions -/

/-- Modelled from the spec: the `UnitQuaternion` class, scalar part `s` and vector part `v`. -/
@[ext] structure UnitQuaternion (R : Type) where
  s : R
  v : Vector3 R
deriving DecidableEq

/-- Modelled from the spec: `sun::AngVec`, the axis-angle pair returned by `toangvec`. -/
structure AngVec (R : Type) where
  ang : R
  vec : Vector3 R

/-- The numeric primitives of the external math library that are not
algebraic: they are parameters of the embedding. -/
structure MathToolbox (R : Type) where
  /-- The function `std::sqrt`. -/
  sqrt : R → R
  /-- The function `std::cos`. -/
  cos : R → R
  /-- The function `std::sin`. -/
  sin : R → R
  /-- The method `UnitQuaternion::toangvec`. -/
  toangvec : UnitQuaternion R → AngVec R
  /-- The constructor `UnitQuaternion(const Matrix<3,3>&)`. -/
  ofRotation : Matrix (Fin 3) (Fin 3) R → UnitQuaternion R

namespace Vector3

variable {R : Type} [LinearOrderedField R]

/-- Modelled from the spec: `TooN::norm`, the Euclidean norm `sqrt(v * v)`. -/
def norm (M : MathToolbox R) (v : Vector3 R) : R := M.sqrt (dot v v)

/-- Modelled from the spec: `TooN::unit`, the vector divided by its norm. -/
def unit (M : MathToolbox R) (v : Vector3 R) : Vector3 R := smul (1 / norm M v) v

end Vector3

namespace UnitQuaternion

variable {R : Type} [LinearOrderedField R]

/-- Modelled from the spec: `UnitQuaternion()`, the identity rotation `(1, 0, 0, 0)`. -/
def identity : UnitQuaternion R := ⟨1, Vector3.Zeros⟩

/-- Modelled from the spec: `UnitQuaternion * UnitQuaternion`, quaternion multiplication. -/
def mul (p q : UnitQuaternion R) : UnitQuaternion R :=
  ⟨p.s * q.s - Vector3.dot p.v q.v,
   Vector3.add (Vector3.add (Vector3.smul p.s q.v) (Vector3.smul q.s p.v)) (Vector3.cross p.v q.v)⟩

/-- Modelled from the spec: `inv(UnitQuaternion)`, the conjugate. -/
def inv (q : UnitQuaternion R) : UnitQuaternion R := ⟨q.s, Vector3.smul (-1) q.v⟩

/-- Modelled from the spec: `UnitQuaternion * Vector<3>`, the vector rotated by the
quaternion: the vector part of `q * (0, v) * inv q`. -/
def rotate (q : UnitQuaternion R) (v : Vector3 R) : Vector3 R :=
  (mul (mul q ⟨0, v⟩) (inv q)).v

/-- Modelled from the spec: `UnitQuaternion::angvec(theta, v)`, the axis-angle quaternion
`(cos(theta/2), sin(theta/2) * v)`. -/
def angvec (M : MathToolbox R) (theta : R) (v : Vector3 R) : UnitQuaternion R :=
  ⟨M.cos (theta / 2), Vector3.smul (M.sin (theta / 2)) v⟩

/-- Squared norm of the four components. -/
def normSq (q : UnitQuaternion R) : R := q.s * q.s + Vector3.dot q.v q.v

end UnitQuaternion

/-! ## Scalar generators -/

/-- Modelled from the spec: the abstract class `Scalar_Traj_Interface`, as the table of
its virtual methods over a type `σ` of scalar-generator objects. -/
structure Scalar_Traj_Interface (R : Type) (σ : Type) where
  getPosition : σ → R → R
  getVelocity : σ → R → R
  getAcceleration : σ → R → R
  getInitialTime : σ → R
  getFinalTime : σ → R
  changeInitialTime : σ → R → σ
  clone : σ → σ

/-! ## Rotation_Const_Axis_Traj -/

/-- The data members of `Rotation_Const_Axis_Traj`; `_traj_theta` is the object owned
through the `Scalar_Traj_Interface_Ptr`. -/
structure Rotation_Const_Axis_Traj (R : Type) (σ : Type) where
  _initial_quat : UnitQuaternion R
  _axis : Vector3 R
  _traj_theta : σ

/-- The constant `std::numeric_limits<double>::epsilon()`, `2^-52`. -/
def epsilon {R : Type} [LinearOrderedField R] : R := 1 / 2 ^ 52

namespace Rotation_Const_Axis_Traj

variable {R : Type} [LinearOrderedField R] {σ : Type}

/-- Constructor `Rotation_Const_Axis_Traj(initial_quat, axis, traj_theta)`
(the warning written to `cout` is not part of the state). -/
def fromAxis (M : MathToolbox R) (I : Scalar_Traj_Interface R σ)
    (initial_quat : UnitQuaternion R) (axis : Vector3 R) (traj_theta : σ) :
    Rotation_Const_Axis_Traj R σ :=
  let this : Rotation_Const_Axis_Traj R σ :=
    { _initial_quat := initial_quat, _axis := Vector3.unit M axis, _traj_theta := I.clone traj_theta }
  if Vector3.norm M axis < 10 * epsilon then
    { this with _axis := Vector3.Zeros }
  else this

/-- Constructor `Rotation_Const_Axis_Traj(initial_quat, final_quat, traj_theta, angle)`:
the object and the value written to the output parameter `angle`. -/
def fromQuats (M : MathToolbox R) (I : Scalar_Traj_Interface R σ)
    (initial_quat final_quat : UnitQuaternion R) (traj_theta : σ) :
    Rotation_Const_Axis_Traj R σ × R :=
  let Delta_Q := UnitQuaternion.mul final_quat (UnitQuaternion.inv initial_quat)
  let Delta_angvec := M.toangvec Delta_Q
  let this : Rotation_Const_Axis_Traj R σ :=
    { _initial_quat := initial_quat, _axis := Delta_angvec.vec, _traj_theta := I.clone traj_theta }
  let angle := Delta_angvec.ang
  if Vector3.norm M this._axis < 10 * epsilon then
    ({ this with _axis := Vector3.Zeros }, angle)
  else (this, angle)

/-- Copy constructor `Rotation_Const_Axis_Traj(const Rotation_Const_Axis_Traj&)`. -/
def copy (I : Scalar_Traj_Interface R σ) (traj : Rotation_Const_Axis_Traj R σ) :
    Rotation_Const_Axis_Traj R σ :=
  { _initial_quat := traj._initial_quat, _axis := traj._axis,
    _traj_theta := I.clone traj._traj_theta }

/-- Method `clone`: a new object built by the copy constructor. -/
def clone (I : Scalar_Traj_Interface R σ) (S : Rotation_Const_Axis_Traj R σ) :
    Rotation_Const_Axis_Traj R σ := copy I S

def getAxis (S : Rotation_Const_Axis_Traj R σ) : Vector3 R := S._axis

def getInitialQuat (S : Rotation_Const_Axis_Traj R σ) : UnitQuaternion R := S._initial_quat

def getFinalTime (I : Scalar_Traj_Interface R σ) (S : Rotation_Const_Axis_Traj R σ) : R :=
  I.getFinalTime S._traj_theta

def getInitialTime (I : Scalar_Traj_Interface R σ) (S : Rotation_Const_Axis_Traj R σ) : R :=
  I.getInitialTime S._traj_theta

/-- Method `setAxis` (the warning written to `cout` is not part of the state). -/
def setAxis (M : MathToolbox R) (S : Rotation_Const_Axis_Traj R σ) (axis : Vector3 R) :
    Rotation_Const_Axis_Traj R σ :=
  let S1 := { S with _axis := Vector3.unit M axis }
  if Vector3.norm M axis < 10 * epsilon then
    { S1 with _axis := Vector3.Zeros }
  else S1

def setInitialQuat (S : Rotation_Const_Axis_Traj R σ) (initial_quat : UnitQuaternion R) :
    Rotation_Const_Axis_Traj R σ :=
  { S with _initial_quat := initial_quat }

def changeInitialTime (I : Scalar_Traj_Interface R σ) (S : Rotation_Const_Axis_Traj R σ)
    (initial_time : R) : Rotation_Const_Axis_Traj R σ :=
  { S with _traj_theta := I.changeInitialTime S._traj_theta initial_time }

def setScalarTraj (I : Scalar_Traj_Interface R σ) (S : Rotation_Const_Axis_Traj R σ)
    (traj_theta : σ) : Rotation_Const_Axis_Traj R σ :=
  { S with _traj_theta := I.clone traj_theta }

/-- Method `changeFrame(const UnitQuaternion&)`. -/
def changeFrame (S : Rotation_Const_Axis_Traj R σ) (new_Q_curr : UnitQuaternion R) :
    Rotation_Const_Axis_Traj R σ :=
  let S1 := { S with _initial_quat := UnitQuaternion.mul new_Q_curr S._initial_quat }
  { S1 with _axis := UnitQuaternion.rotate new_Q_curr S1._axis }

/-- Method `changeFrame(const Matrix<3,3>&)`. -/
def changeFrameR (M : MathToolbox R) (S : Rotation_Const_Axis_Traj R σ)
    (new_R_curr : Matrix (Fin 3) (Fin 3) R) : Rotation_Const_Axis_Traj R σ :=
  changeFrame S (M.ofRotation new_R_curr)

def getDeltaQuat (M : MathToolbox R) (I : Scalar_Traj_Interface R σ)
    (S : Rotation_Const_Axis_Traj R σ) (secs : R) : UnitQuaternion R :=
  if S._axis.x = 0 ∧ S._axis.y = 0 ∧ S._axis.z = 0 then
    UnitQuaternion.identity
  else
    UnitQuaternion.angvec M (I.getPosition S._traj_theta secs) S._axis

def getQuaternion (M : MathToolbox R) (I : Scalar_Traj_Interface R σ)
    (S : Rotation_Const_Axis_Traj R σ) (secs : R) : UnitQuaternion R :=
  UnitQuaternion.mul (getDeltaQuat M I S secs) S._initial_quat

def getVelocity (I : Scalar_Traj_Interface R σ) (S : Rotation_Const_Axis_Traj R σ)
    (secs : R) : Vector3 R :=
  Vector3.smul (I.getVelocity S._traj_theta secs) S._axis

def getAcceleration (I : Scalar_Traj_Interface R σ) (S : Rotation_Const_Axis_Traj R σ)
    (secs : R) : Vector3 R :=
  Vector3.smul (I.getAcceleration S._traj_theta secs) S._axis

end Rotation_Const_Axis_Traj

/-! ## Ownership of the scalar generator

The member `_traj_theta` is a `Scalar_Traj_Interface_Ptr`: the scalar generator lives
in the free store and the generator holds its address.  The definitions below follow
the address explicitly, for the members that read or write through it. -/

/-- The free store of scalar generators: the object at each address, and the address
the next `new` returns. -/
structure Store (σ : Type) where
  cell : Nat → Option σ
  next : Nat

namespace Store

variable {R : Type} {σ : Type}

/-- A `new` expression: the object is placed at the next address. -/
def alloc (h : Store σ) (v : σ) : Store σ × Nat :=
  ({ cell := Function.update h.cell h.next (some v), next := h.next + 1 }, h.next)

/-- The state of a generator read through its pointer. -/
def load (h : Store σ) (o : Rotation_Const_Axis_Traj R Nat) :
    Option (Rotation_Const_Axis_Traj R σ) :=
  (h.cell o._traj_theta).map fun s =>
    { _initial_quat := o._initial_quat, _axis := o._axis, _traj_theta := s }

end Store

/-- The values the getters of a generator return, the sampling ones at a given time. -/
structure Outputs (R : Type) where
  axis : Vector3 R
  initialQuat : UnitQuaternion R
  initialTime : R
  finalTime : R
  quaternion : UnitQuaternion R
  velocity : Vector3 R
  acceleration : Vector3 R

/-- A call of one of the mutators of `Rotation_Const_Axis_Traj`, with its argument. -/
inductive Mutation (R : Type) (σ : Type) where
  | setAxis (axis : Vector3 R)
  | setInitialQuat (initial_quat : UnitQuaternion R)
  | setScalarTraj (traj_theta : σ)
  | changeInitialTime (initial_time : R)
  | changeFrame (new_Q_curr : UnitQuaternion R)
  | changeFrameR (new_R_curr : Matrix (Fin 3) (Fin 3) R)

namespace Rotation_Const_Axis_Traj

variable {R : Type} [LinearOrderedField R] {σ : Type}

/-- All getters of a generator, the sampling ones at time `secs`. -/
def outputs (M : MathToolbox R) (I : Scalar_Traj_Interface R σ)
    (S : Rotation_Const_Axis_Traj R σ) (secs : R) : Outputs R :=
  { axis := getAxis S, initialQuat := getInitialQuat S,
    initialTime := getInitialTime I S, finalTime := getFinalTime I S,
    quaternion := getQuaternion M I S secs, velocity := getVelocity I S secs,
    acceleration := getAcceleration I S secs }

/-- All getters of a generator object in the store; `none` for a dangling pointer. -/
def outputsP (M : MathToolbox R) (I : Scalar_Traj_Interface R σ) (h : Store σ)
    (o : Rotation_Const_Axis_Traj R Nat) (secs : R) : Option (Outputs R) :=
  (h.load o).map fun S => outputs M I S secs

/-- Copy constructor on the store: `traj._traj_theta->clone()` is placed at a new
address, which the copy owns. -/
def copyP (I : Scalar_Traj_Interface R σ) (h : Store σ) (traj : Rotation_Const_Axis_Traj R Nat) :
    Option (Store σ × Rotation_Const_Axis_Traj R Nat) :=
  match h.cell traj._traj_theta with
  | none => none
  | some s =>
    let (h1, p) := h.alloc (I.clone s)
    some (h1, { _initial_quat := traj._initial_quat, _axis := traj._axis, _traj_theta := p })

/-- Method `clone` on the store. -/
def cloneP (I : Scalar_Traj_Interface R σ) (h : Store σ) (S : Rotation_Const_Axis_Traj R Nat) :
    Option (Store σ × Rotation_Const_Axis_Traj R Nat) :=
  copyP I h S

/-- Method `changeInitialTime` on the store: the owned scalar generator is changed in
place. -/
def changeInitialTimeP (I : Scalar_Traj_Interface R σ) (h : Store σ)
    (S : Rotation_Const_Axis_Traj R Nat) (initial_time : R) :
    Option (Store σ × Rotation_Const_Axis_Traj R Nat) :=
  match h.cell S._traj_theta with
  | none => none
  | some s =>
    some ({ h with cell := Function.update h.cell S._traj_theta
                    (some (I.changeInitialTime s initial_time)) }, S)

/-- Method `setScalarTraj` on the store: the clone of the argument is placed at a new
address and the generator owned so far is destroyed. -/
def setScalarTrajP (I : Scalar_Traj_Interface R σ) (h : Store σ)
    (S : Rotation_Const_Axis_Traj R Nat) (traj_theta : σ) :
    Option (Store σ × Rotation_Const_Axis_Traj R Nat) :=
  let (h1, p) := h.alloc (I.clone traj_theta)
  some ({ h1 with cell := Function.update h1.cell S._traj_theta none },
    { S with _traj_theta := p })

/-- The effect of a mutator call on a generator state. -/
def apply (M : MathToolbox R) (I : Scalar_Traj_Interface R σ) :
    Mutation R σ → Rotation_Const_Axis_Traj R σ → Rotation_Const_Axis_Traj R σ
  | .setAxis axis, S => setAxis M S axis
  | .setInitialQuat q, S => setInitialQuat S q
  | .setScalarTraj s, S => setScalarTraj I S s
  | .changeInitialTime t0, S => changeInitialTime I S t0
  | .changeFrame Q, S => changeFrame S Q
  | .changeFrameR A, S => changeFrameR M S A

/-- The effect of a mutator call on a generator object in the store; the members that
do not touch `_traj_theta` leave the store as it is. -/
def applyP (M : MathToolbox R) (I : Scalar_Traj_Interface R σ) :
    Mutation R σ → Store σ → Rotation_Const_Axis_Traj R Nat →
      Option (Store σ × Rotation_Const_Axis_Traj R Nat)
  | .setAxis axis, h, S => some (h, setAxis M S axis)
  | .setInitialQuat q, h, S => some (h, setInitialQuat S q)
  | .setScalarTraj s, h, S => setScalarTrajP I h S s
  | .changeInitialTime t0, h, S => changeInitialTimeP I h S t0
  | .changeFrame Q, h, S => some (h, changeFrame S Q)
  | .changeFrameR A, h, S => some (h, changeFrameR M S A)

/-- A sequence of mutator calls on a generator object in the store. -/
def applyAllP (M : MathToolbox R) (I : Scalar_Traj_Interface R σ) :
    List (Mutation R σ) → Store σ → Rotation_Const_Axis_Traj R Nat →
      Option (Store σ × Rotation_Const_Axis_Traj R Nat)
  | [], h, S => some (h, S)
  | m :: ms, h, S =>
    match applyP M I m h S with
    | none => none
    | some (h1, S1) => applyAllP M I ms h1 S1

end Rotation_Const_Axis_Traj

/-- Contract of the scalar generators' `clone`: the clone answers every getter as the
original does. -/
def Scalar_Traj_Interface.CloneExact {R : Type} {σ : Type} (I : Scalar_Traj_Interface R σ) :
    Prop :=
  ∀ s : σ, (∀ t, I.getPosition (I.clone s) t = I.getPosition s t) ∧
    (∀ t, I.getVelocity (I.clone s) t = I.getVelocity s t) ∧
    (∀ t, I.getAcceleration (I.clone s) t = I.getAcceleration s t) ∧
    I.getInitialTime (I.clone s) = I.getInitialTime s ∧
    I.getFinalTime (I.clone s) = I.getFinalTime s

/-! ## An example scalar generator -/

/-- An example object of the scalar interface, used in the scenarios: the angle starts
from `theta_i` at `initial_time` and moves at the constant rate `rate` for `duration`. -/
structure Linear_Traj (R : Type) where
  initial_time : R
  duration : R
  theta_i : R
  rate : R

/-- The methods of the example scalar generator. -/
def Linear_Traj.interface {R : Type} [LinearOrderedField R] :
    Scalar_Traj_Interface R (Linear_Traj R) where
  getPosition s t := s.theta_i + s.rate * (t - s.initial_time)
  getVelocity s _ := s.rate
  getAcceleration _ _ := 0
  getInitialTime s := s.initial_time
  getFinalTime s := s.initial_time + s.duration
  changeInitialTime s t0 := { s with initial_time := t0 }
  clone s := s

/-! ## Cartesian_Traj_Interface

An embedding of `include/Traj_Generators/Cartesian_Traj_Interface.h`.  The class is
abstract: the data members of a concrete subclass are a type `γ`, and its
implementations of the virtual members are a table `Cartesian_Traj_Virtual`. -/

/-- Modelled from the spec: `TooN::Vector<6, P>`, six coordinates. -/
abbrev Vector6 (P : Type) : Type := Fin 6 → P

namespace Vector6

/-- Modelled from the spec: `TooN::Ones`, every coordinate is one. -/
def Ones : Vector6 Int := fun _ => 1

/-- Modelled from the spec: the assignment `t.slice<start, 3>() = v`, which writes the
coordinates `start`, `start + 1`, `start + 2` and leaves the others. -/
def setSlice3 {P : Type} (t : Vector6 P) (start : Nat) (v : Vector3 P) : Vector6 P :=
  fun i =>
    if i.val = start then v.x
    else if i.val = start + 1 then v.y
    else if i.val = start + 2 then v.z
    else t i

end Vector6

/-- Modelled from the spec: `r2t`, the homogeneous transform with the given rotation and
zero translation. -/
def r2t {R : Type} [LinearOrderedField R] (A : Matrix (Fin 3) (Fin 3) R) :
    Matrix (Fin 4) (Fin 4) R :=
  Matrix.of fun i j =>
    if h : i.val < 3 ∧ j.val < 3 then A ⟨i.val, h.1⟩ ⟨j.val, h.2⟩
    else if i = j then 1 else 0

/-- Modelled from the spec: `UnitQuaternion::torot`, the rotation matrix of a quaternion. -/
def UnitQuaternion.torot {R : Type} [LinearOrderedField R] (q : UnitQuaternion R) :
    Matrix (Fin 3) (Fin 3) R :=
  !![1 - 2 * (q.v.y * q.v.y + q.v.z * q.v.z), 2 * (q.v.x * q.v.y - q.s * q.v.z),
      2 * (q.v.x * q.v.z + q.s * q.v.y);
    2 * (q.v.x * q.v.y + q.s * q.v.z), 1 - 2 * (q.v.x * q.v.x + q.v.z * q.v.z),
      2 * (q.v.y * q.v.z - q.s * q.v.x);
    2 * (q.v.x * q.v.z - q.s * q.v.y), 2 * (q.v.y * q.v.z + q.s * q.v.x),
      1 - 2 * (q.v.x * q.v.x + q.v.y * q.v.y)]

/-- Modelled from the spec: the time window kept by the base class
`Traj_Generator_Interface(duration, initial_time)`. -/
structure Traj_Generator_Interface (R : Type) where
  duration : R
  initial_time : R

/-- The result of a call that may end the process: the value returned, or the status
handed to `exit`. -/
inductive Outcome (α : Type) where
  | returned (a : α)
  | exited (status : Int)

/-- The data members of a Cartesian generator: the base sub-object, the member `_mask`,
and the members `derived` of the concrete subclass. -/
structure Cartesian_Traj_Interface (R : Type) (γ : Type) where
  base : Traj_Generator_Interface R
  _mask : Vector6 Int
  derived : γ

/-- The virtual members a concrete subclass supplies: the pure virtual getters, and its
override of `changeFrame(const Matrix<4,4>&)` if it has one. -/
structure Cartesian_Traj_Virtual (R : Type) (γ : Type) where
  getPosition : Cartesian_Traj_Interface R γ → R → Vector3 R
  getQuaternion : Cartesian_Traj_Interface R γ → R → UnitQuaternion R
  getLinearVelocity : Cartesian_Traj_Interface R γ → R → Vector3 R
  getAngularVelocity : Cartesian_Traj_Interface R γ → R → Vector3 R
  changeFrame_override : Option (Cartesian_Traj_Interface R γ → Matrix (Fin 4) (Fin 4) R →
    Outcome (Cartesian_Traj_Interface R γ))

namespace Cartesian_Traj_Interface

variable {R : Type} [LinearOrderedField R] {γ : Type}

/-- Constructor `Cartesian_Traj_Interface(duration, initial_time = 0.0)`, followed by the
initialisation `derived` of the subclass members. -/
def init (derived : γ) (duration : R) (initial_time : R := 0) : Cartesian_Traj_Interface R γ :=
  { base := { duration := duration, initial_time := initial_time },
    _mask := Vector6.Ones, derived := derived }

/-- The base implementation of `changeFrame(const Matrix<4,4>&)`: an error message on
`cout`, then `exit(-1)`. -/
def changeFrame (_obj : Cartesian_Traj_Interface R γ) (_new_T_curr : Matrix (Fin 4) (Fin 4) R) :
    Outcome (Cartesian_Traj_Interface R γ) :=
  Outcome.exited (-1)

/-- The virtual call of `changeFrame(const Matrix<4,4>&)`: the override of the subclass,
or the base implementation. -/
def changeFrameT (V : Cartesian_Traj_Virtual R γ) (obj : Cartesian_Traj_Interface R γ)
    (new_T_curr : Matrix (Fin 4) (Fin 4) R) : Outcome (Cartesian_Traj_Interface R γ) :=
  match V.changeFrame_override with
  | some f => f obj new_T_curr
  | none => changeFrame obj new_T_curr

/-- Method `changeFrame(const Matrix<3,3>&)` of the base class. -/
def changeFrameR (V : Cartesian_Traj_Virtual R γ) (obj : Cartesian_Traj_Interface R γ)
    (new_R_curr : Matrix (Fin 3) (Fin 3) R) : Outcome (Cartesian_Traj_Interface R γ) :=
  changeFrameT V obj (r2t new_R_curr)

/-- Method `changeFrame(const UnitQuaternion&)` of the base class. -/
def changeFrameQ (V : Cartesian_Traj_Virtual R γ) (obj : Cartesian_Traj_Interface R γ)
    (new_Q_curr : UnitQuaternion R) : Outcome (Cartesian_Traj_Interface R γ) :=
  changeFrameR V obj (UnitQuaternion.torot new_Q_curr)

/-- Method `getTwist`; `t` is the content of the local vector before the two slice
assignments. -/
def getTwist (V : Cartesian_Traj_Virtual R γ) (obj : Cartesian_Traj_Interface R γ) (secs : R)
    (t : Vector6 R) : Vector6 R :=
  let t1 := Vector6.setSlice3 t 0 (V.getLinearVelocity obj secs)
  let t2 := Vector6.setSlice3 t1 3 (V.getAngularVelocity obj secs)
  t2

end Cartesian_Traj_Interface

/-- The members of an example concrete Cartesian generator, used in the scenarios: a
point that starts at `p0` with orientation `q0` and moves with the constant linear
velocity `v` and angular velocity `w`. -/
structure Screw_Traj (R : Type) where
  p0 : Vector3 R
  q0 : UnitQuaternion R
  v : Vector3 R
  w : Vector3 R

/-- The virtual members of the example Cartesian generator; `changeFrame` is not
overridden. -/
def Screw_Traj.virtual {R : Type} [LinearOrderedField R] :
    Cartesian_Traj_Virtual R (Screw_Traj R) where
  getPosition obj t := Vector3.add obj.derived.p0 (Vector3.smul t obj.derived.v)
  getQuaternion obj _ := obj.derived.q0
  getLinearVelocity obj _ := obj.derived.v
  getAngularVelocity obj _ := obj.derived.w
  changeFrame_override := none

/-- The example Cartesian generator with an override of `changeFrame(const Matrix<4,4>&)`
that rotates the two velocities by the rotation block of the transform. -/
def Screw_Traj.virtualFrame {R : Type} [LinearOrderedField R] :
    Cartesian_Traj_Virtual R (Screw_Traj R) where
  getPosition obj t := Vector3.add obj.derived.p0 (Vector3.smul t obj.derived.v)
  getQuaternion obj _ := obj.derived.q0
  getLinearVelocity obj _ := obj.derived.v
  getAngularVelocity obj _ := obj.derived.w
  changeFrame_override := some fun obj T =>
    let rot := fun u : Vector3 R =>
      (⟨T 0 0 * u.x + T 0 1 * u.y + T 0 2 * u.z, T 1 0 * u.x + T 1 1 * u.y + T 1 2 * u.z,
        T 2 0 * u.x + T 2 1 * u.y + T 2 2 * u.z⟩ : Vector3 R)
    Outcome.returned
      { obj with derived := ⟨obj.derived.p0, obj.derived.q0, rot obj.derived.v, rot obj.derived.w⟩ }

/-- The outputs of a generator that does not rotate: identity increment, the stored
initial quaternion as orientation, zero angular velocity and acceleration, at every time. -/
def Rotation_Const_Axis_Traj.NoRotation {R : Type} [LinearOrderedField R] {σ : Type}
    (M : MathToolbox R) (I : Scalar_Traj_Interface R σ) (S : Rotation_Const_Axis_Traj R σ) :
    Prop :=
  ∀ t : R, getDeltaQuat M I S t = UnitQuaternion.identity ∧
    getQuaternion M I S t = S._initial_quat ∧
    getVelocity I S t = Vector3.Zeros ∧
    getAcceleration I S t = Vector3.Zeros

/-- Contract of `sqrt`: the result is non-negative and squares back to a
non-negative argument. -/
def MathToolbox.SqrtExact {R : Type} [LinearOrderedField R] (M : MathToolbox R) : Prop :=
  (∀ x, 0 ≤ M.sqrt x) ∧ (∀ x, 0 ≤ x → M.sqrt x * M.sqrt x = x)

/-- Contract of `cos` and `sin`: their values at zero and the Pythagorean identity. -/
def MathToolbox.TrigExact {R : Type} [LinearOrderedField R] (M : MathToolbox R) : Prop :=
  M.cos 0 = 1 ∧ M.sin 0 = 0 ∧ ∀ x, M.cos x * M.cos x + M.sin x * M.sin x = 1

/-- A quaternion of unit norm. -/
def UnitQuaternion.IsUnit {R : Type} [LinearOrderedField R] (q : UnitQuaternion R) : Prop :=
  UnitQuaternion.normSq q = 1

/-- The data-model predicate on the rotation axis: unit norm, or exactly zero. -/
def Vector3.UnitOrZero {R : Type} [LinearOrderedField R] (M : MathToolbox R) (v : Vector3 R) :
    Prop :=
  Vector3.norm M v = 1 ∨ v = Vector3.Zeros

/-- Contract of `toangvec`: the axis extracted from a unit quaternion is a unit vector,
or zero when there is no rotation. -/
def MathToolbox.AngVecExact {R : Type} [LinearOrderedField R] (M : MathToolbox R) : Prop :=
  ∀ q : UnitQuaternion R, q.IsUnit → Vector3.UnitOrZero M (M.toangvec q).vec

/-- A rotation matrix: orthogonal with determinant one. -/
def IsRotationMatrix {R : Type} [LinearOrderedField R] (A : Matrix (Fin 3) (Fin 3) R) : Prop :=
  A * A.transpose = 1 ∧ A.det = 1

/-- Contract of `UnitQuaternion(const Matrix<3,3>&)`: a rotation matrix is converted to a
quaternion of unit norm. -/
def MathToolbox.OfRotationExact {R : Type} [LinearOrderedField R] (M : MathToolbox R) : Prop :=
  ∀ A : Matrix (Fin 3) (Fin 3) R, IsRotationMatrix A → (M.ofRotation A).IsUnit

/-- Contract of the scalar generators' `changeInitialTime`: the window starts at the new
time and keeps its duration. -/
def Scalar_Traj_Interface.ShiftExact {R : Type} [LinearOrderedField R] {σ : Type}
    (I : Scalar_Traj_Interface R σ) : Prop :=
  ∀ (s : σ) (t0 : R), I.getInitialTime (I.changeInitialTime s t0) = t0 ∧
    I.getFinalTime (I.changeInitialTime s t0) - I.getInitialTime (I.changeInitialTime s t0)
      = I.getFinalTime s - I.getInitialTime s

/-- The norm of the four components of a quaternion. -/
def UnitQuaternion.norm {R : Type} [LinearOrderedField R] (M : MathToolbox R)
    (q : UnitQuaternion R) : R :=
  M.sqrt (UnitQuaternion.normSq q)

/-- The multiple of a quaternion by a scalar, component by component. -/
def UnitQuaternion.scale {R : Type} [LinearOrderedField R] (k : R) (q : UnitQuaternion R) :
    UnitQuaternion R :=
  ⟨k * q.s, Vector3.smul k q.v⟩

/-- Contract of `toangvec`: when it reports a non-zero axis for a unit quaternion, the
axis-angle quaternion of the reported angle and axis is that quaternion. -/
def MathToolbox.AngVecInverse {R : Type} [LinearOrderedField R] (M : MathToolbox R) : Prop :=
  ∀ q : UnitQuaternion R, q.IsUnit → (M.toangvec q).vec ≠ Vector3.Zeros →
    UnitQuaternion.angvec M (M.toangvec q).ang (M.toangvec q).vec = q

/-! ## Auxiliary facts on the primitives -/

section Lemmas

variable {R : Type} [LinearOrderedField R] {σ : Type}

theorem UnitQuaternion.identity_mul (q : UnitQuaternion R) :
    UnitQuaternion.mul UnitQuaternion.identity q = q := by
  apply UnitQuaternion.ext
  · simp [UnitQuaternion.mul, UnitQuaternion.identity, Vector3.dot, Vector3.Zeros]
  · apply Vector3.ext <;>
      simp [UnitQuaternion.mul, UnitQuaternion.identity, Vector3.add, Vector3.smul,
        Vector3.cross, Vector3.Zeros]

theorem MathToolbox.SqrtExact.sqrt_zero {M : MathToolbox R} (hM : M.SqrtExact) :
    M.sqrt 0 = 0 := by
  have h := hM.2 0 le_rfl
  exact mul_self_eq_zero.mp h

theorem MathToolbox.SqrtExact.sqrt_one {M : MathToolbox R} (hM : M.SqrtExact) :
    M.sqrt 1 = 1 := by
  have h := hM.2 1 zero_le_one
  have h0 := hM.1 1
  nlinarith [h, h0]

theorem Vector3.norm_Zeros {M : MathToolbox R} (hM : M.SqrtExact) :
    Vector3.norm M (Vector3.Zeros : Vector3 R) = 0 := by
  simp [Vector3.norm, Vector3.dot, Vector3.Zeros, hM.sqrt_zero]

theorem epsilon_pos : (0 : R) < 10 * epsilon := by
  unfold epsilon
  positivity

theorem Vector3.eq_Zeros_iff (v : Vector3 R) :
    (v.x = 0 ∧ v.y = 0 ∧ v.z = 0) ↔ v = Vector3.Zeros := by
  constructor
  · rintro ⟨h1, h2, h3⟩
    exact Vector3.ext h1 h2 h3
  · intro h
    subst h
    exact ⟨rfl, rfl, rfl⟩

theorem Vector3.smul_Zeros (k : R) : Vector3.smul k (Vector3.Zeros : Vector3 R) = Vector3.Zeros := by
  simp [Vector3.smul, Vector3.Zeros]

/-- A vector of norm one is not the zero vector. -/
theorem Vector3.ne_Zeros_of_norm_eq_one {M : MathToolbox R} (hM : M.SqrtExact) {v : Vector3 R}
    (hv : Vector3.norm M v = 1) : v ≠ Vector3.Zeros := by
  intro h
  rw [h, Vector3.norm_Zeros hM] at hv
  exact zero_ne_one hv

/-- The sampling functions on a state whose stored axis is the zero sentinel. -/
theorem Rotation_Const_Axis_Traj.sample_of_axis_Zeros (M : MathToolbox R)
    (I : Scalar_Traj_Interface R σ) (S : Rotation_Const_Axis_Traj R σ)
    (hS : S._axis = Vector3.Zeros) (t : R) :
    getDeltaQuat M I S t = UnitQuaternion.identity ∧
    getQuaternion M I S t = S._initial_quat ∧
    getVelocity I S t = Vector3.Zeros ∧
    getAcceleration I S t = Vector3.Zeros := by
  have hd : getDeltaQuat M I S t = UnitQuaternion.identity := by
    unfold getDeltaQuat
    rw [if_pos ((Vector3.eq_Zeros_iff _).mpr hS)]
  refine ⟨hd, ?_, ?_, ?_⟩
  · unfold getQuaternion
    rw [hd, UnitQuaternion.identity_mul]
  · unfold getVelocity
    rw [hS, Vector3.smul_Zeros]
  · unfold getAcceleration
    rw [hS, Vector3.smul_Zeros]

/-- The sampling functions on a state whose stored axis is not the zero sentinel. -/
theorem Rotation_Const_Axis_Traj.getDeltaQuat_of_axis_ne (M : MathToolbox R)
    (I : Scalar_Traj_Interface R σ) (S : Rotation_Const_Axis_Traj R σ)
    (hS : S._axis ≠ Vector3.Zeros) (t : R) :
    getDeltaQuat M I S t = UnitQuaternion.angvec M (I.getPosition S._traj_theta t) S._axis := by
  unfold getDeltaQuat
  rw [if_neg (fun h => hS ((Vector3.eq_Zeros_iff _).mp h))]

theorem Rotation_Const_Axis_Traj.setAxis_Zeros {M : MathToolbox R} (hM : M.SqrtExact)
    (S : Rotation_Const_Axis_Traj R σ) :
    setAxis M S Vector3.Zeros = { S with _axis := Vector3.Zeros } := by
  unfold setAxis
  have h : Vector3.norm M (Vector3.Zeros : Vector3 R) < 10 * epsilon := by
    rw [Vector3.norm_Zeros hM]
    exact epsilon_pos
  simp only [if_pos h]

theorem Rotation_Const_Axis_Traj.fromAxis_Zeros {M : MathToolbox R} (hM : M.SqrtExact)
    (I : Scalar_Traj_Interface R σ) (q0 : UnitQuaternion R) (s : σ) :
    fromAxis M I q0 Vector3.Zeros s =
      { _initial_quat := q0, _axis := Vector3.Zeros, _traj_theta := I.clone s } := by
  unfold fromAxis
  have h : Vector3.norm M (Vector3.Zeros : Vector3 R) < 10 * epsilon := by
    rw [Vector3.norm_Zeros hM]
    exact epsilon_pos
  simp only [if_pos h]

theorem Vector3.dot_self_nonneg (v : Vector3 R) : 0 ≤ Vector3.dot v v := by
  unfold Vector3.dot
  nlinarith [mul_self_nonneg v.x, mul_self_nonneg v.y, mul_self_nonneg v.z]

theorem Vector3.norm_unit {M : MathToolbox R} (hM : M.SqrtExact) (v : Vector3 R)
    (hv : ¬ Vector3.norm M v < 10 * epsilon) : Vector3.norm M (Vector3.unit M v) = 1 := by
  have hn : 0 < Vector3.norm M v := lt_of_lt_of_le epsilon_pos (not_lt.mp hv)
  have hsq : Vector3.norm M v * Vector3.norm M v = Vector3.dot v v :=
    hM.2 _ (Vector3.dot_self_nonneg v)
  have hd : Vector3.dot (Vector3.unit M v) (Vector3.unit M v) = 1 := by
    have : Vector3.dot (Vector3.unit M v) (Vector3.unit M v)
        = Vector3.dot v v / (Vector3.norm M v * Vector3.norm M v) := by
      simp only [Vector3.unit, Vector3.dot, Vector3.smul]
      field_simp
    rw [this, hsq]
    exact div_self (by rw [← hsq]; positivity)
  unfold Vector3.norm at *
  rw [hd]
  exact hM.sqrt_one

theorem UnitQuaternion.dot_rotate (q : UnitQuaternion R) (v : Vector3 R) :
    Vector3.dot (UnitQuaternion.rotate q v) (UnitQuaternion.rotate q v)
      = UnitQuaternion.normSq q * UnitQuaternion.normSq q * Vector3.dot v v := by
  simp only [UnitQuaternion.rotate, UnitQuaternion.mul, UnitQuaternion.inv, UnitQuaternion.normSq,
    Vector3.dot, Vector3.add, Vector3.smul, Vector3.cross]
  ring

theorem UnitQuaternion.rotate_Zeros (q : UnitQuaternion R) :
    UnitQuaternion.rotate q Vector3.Zeros = Vector3.Zeros := by
  apply Vector3.ext <;>
  simp [UnitQuaternion.rotate, UnitQuaternion.mul, UnitQuaternion.inv,
    Vector3.dot, Vector3.add, Vector3.smul, Vector3.cross, Vector3.Zeros]

theorem UnitQuaternion.normSq_mul (p q : UnitQuaternion R) :
    UnitQuaternion.normSq (UnitQuaternion.mul p q)
      = UnitQuaternion.normSq p * UnitQuaternion.normSq q := by
  simp only [UnitQuaternion.mul, UnitQuaternion.normSq,
    Vector3.dot, Vector3.add, Vector3.smul, Vector3.cross]
  ring

theorem UnitQuaternion.normSq_inv (q : UnitQuaternion R) :
    UnitQuaternion.normSq (UnitQuaternion.inv q) = UnitQuaternion.normSq q := by
  simp only [UnitQuaternion.inv, UnitQuaternion.normSq, Vector3.dot, Vector3.smul]
  ring

theorem Vector3.norm_rotate (M : MathToolbox R) {q : UnitQuaternion R} (hq : q.IsUnit)
    (v : Vector3 R) : Vector3.norm M (UnitQuaternion.rotate q v) = Vector3.norm M v := by
  unfold Vector3.norm
  rw [UnitQuaternion.dot_rotate, hq, one_mul, one_mul]

theorem Vector3.UnitOrZero.rotate {M : MathToolbox R} {q : UnitQuaternion R} (hq : q.IsUnit)
    {v : Vector3 R} (hv : Vector3.UnitOrZero M v) :
    Vector3.UnitOrZero M (UnitQuaternion.rotate q v) := by
  rcases hv with h | h
  · left
    rw [Vector3.norm_rotate M hq, h]
  · right
    rw [h, UnitQuaternion.rotate_Zeros]

theorem UnitQuaternion.mul_identity (q : UnitQuaternion R) :
    UnitQuaternion.mul q UnitQuaternion.identity = q := by
  apply UnitQuaternion.ext
  · simp [UnitQuaternion.mul, UnitQuaternion.identity, Vector3.dot, Vector3.Zeros]
  · apply Vector3.ext <;>
      simp [UnitQuaternion.mul, UnitQuaternion.identity, Vector3.add, Vector3.smul,
        Vector3.cross, Vector3.Zeros]

theorem UnitQuaternion.mul_assoc (p q r : UnitQuaternion R) :
    UnitQuaternion.mul (UnitQuaternion.mul p q) r
      = UnitQuaternion.mul p (UnitQuaternion.mul q r) := by
  apply UnitQuaternion.ext
  · simp only [UnitQuaternion.mul, Vector3.dot, Vector3.add, Vector3.smul, Vector3.cross]
    ring
  · apply Vector3.ext <;>
      simp only [UnitQuaternion.mul, Vector3.dot, Vector3.add, Vector3.smul, Vector3.cross] <;>
      ring

theorem UnitQuaternion.inv_mul_cancel {q : UnitQuaternion R} (hq : q.IsUnit) :
    UnitQuaternion.mul (UnitQuaternion.inv q) q = UnitQuaternion.identity := by
  have h : q.s * q.s + (q.v.x * q.v.x + q.v.y * q.v.y + q.v.z * q.v.z) = 1 := hq
  apply UnitQuaternion.ext
  · simp only [UnitQuaternion.mul, UnitQuaternion.inv, UnitQuaternion.identity, Vector3.dot,
      Vector3.smul]
    linear_combination h
  · apply Vector3.ext <;>
      simp only [UnitQuaternion.mul, UnitQuaternion.inv, UnitQuaternion.identity, Vector3.add,
        Vector3.smul, Vector3.cross, Vector3.Zeros] <;>
      ring

theorem UnitQuaternion.mul_inv_cancel {q : UnitQuaternion R} (hq : q.IsUnit) :
    UnitQuaternion.mul q (UnitQuaternion.inv q) = UnitQuaternion.identity := by
  have h : q.s * q.s + (q.v.x * q.v.x + q.v.y * q.v.y + q.v.z * q.v.z) = 1 := hq
  apply UnitQuaternion.ext
  · simp only [UnitQuaternion.mul, UnitQuaternion.inv, UnitQuaternion.identity, Vector3.dot,
      Vector3.smul]
    linear_combination h
  · apply Vector3.ext <;>
      simp only [UnitQuaternion.mul, UnitQuaternion.inv, UnitQuaternion.identity, Vector3.add,
        Vector3.smul, Vector3.cross, Vector3.Zeros] <;>
      ring

theorem UnitQuaternion.isUnit_inv {q : UnitQuaternion R} (hq : q.IsUnit) :
    (UnitQuaternion.inv q).IsUnit := by
  unfold UnitQuaternion.IsUnit at *
  rw [UnitQuaternion.normSq_inv, hq]

/-- Right cancellation of a unit quaternion. -/
theorem UnitQuaternion.mul_right_cancel {p q r : UnitQuaternion R} (hr : r.IsUnit)
    (h : UnitQuaternion.mul p r = UnitQuaternion.mul q r) : p = q := by
  have h2 := congrArg (fun x => UnitQuaternion.mul x (UnitQuaternion.inv r)) h
  simp only [UnitQuaternion.mul_assoc, UnitQuaternion.mul_inv_cancel hr,
    UnitQuaternion.mul_identity] at h2
  exact h2

theorem UnitQuaternion.rotate_inv_rotate {q : UnitQuaternion R} (hq : q.IsUnit) (v : Vector3 R) :
    UnitQuaternion.rotate (UnitQuaternion.inv q) (UnitQuaternion.rotate q v) = v := by
  have h : q.s * q.s + (q.v.x * q.v.x + q.v.y * q.v.y + q.v.z * q.v.z) = 1 := hq
  apply Vector3.ext
  · simp only [UnitQuaternion.rotate, UnitQuaternion.mul, UnitQuaternion.inv, Vector3.dot,
      Vector3.add, Vector3.smul, Vector3.cross]
    linear_combination
      (v.x * (q.s * q.s + (q.v.x * q.v.x + q.v.y * q.v.y + q.v.z * q.v.z) + 1)) * h
  · simp only [UnitQuaternion.rotate, UnitQuaternion.mul, UnitQuaternion.inv, Vector3.dot,
      Vector3.add, Vector3.smul, Vector3.cross]
    linear_combination
      (v.y * (q.s * q.s + (q.v.x * q.v.x + q.v.y * q.v.y + q.v.z * q.v.z) + 1)) * h
  · simp only [UnitQuaternion.rotate, UnitQuaternion.mul, UnitQuaternion.inv, Vector3.dot,
      Vector3.add, Vector3.smul, Vector3.cross]
    linear_combination
      (v.z * (q.s * q.s + (q.v.x * q.v.x + q.v.y * q.v.y + q.v.z * q.v.z) + 1)) * h

theorem UnitQuaternion.rotate_ne_Zeros {q : UnitQuaternion R} (hq : q.IsUnit) {v : Vector3 R}
    (hv : v ≠ Vector3.Zeros) : UnitQuaternion.rotate q v ≠ Vector3.Zeros := by
  intro h
  apply hv
  rw [← UnitQuaternion.rotate_inv_rotate hq v, h, UnitQuaternion.rotate_Zeros]

theorem UnitQuaternion.smul_rotate (k : R) (q : UnitQuaternion R) (v : Vector3 R) :
    Vector3.smul k (UnitQuaternion.rotate q v) = UnitQuaternion.rotate q (Vector3.smul k v) := by
  apply Vector3.ext <;>
    simp only [UnitQuaternion.rotate, UnitQuaternion.mul, UnitQuaternion.inv, Vector3.dot,
      Vector3.add, Vector3.smul, Vector3.cross] <;>
    ring

theorem UnitQuaternion.angvec_rotate (M : MathToolbox R) {q : UnitQuaternion R} (hq : q.IsUnit)
    (theta : R) (v : Vector3 R) :
    UnitQuaternion.angvec M theta (UnitQuaternion.rotate q v)
      = UnitQuaternion.mul (UnitQuaternion.mul q (UnitQuaternion.angvec M theta v))
          (UnitQuaternion.inv q) := by
  have h : q.s * q.s + (q.v.x * q.v.x + q.v.y * q.v.y + q.v.z * q.v.z) = 1 := hq
  apply UnitQuaternion.ext
  · simp only [UnitQuaternion.angvec, UnitQuaternion.rotate, UnitQuaternion.mul,
      UnitQuaternion.inv, Vector3.dot, Vector3.add, Vector3.smul, Vector3.cross]
    linear_combination (- M.cos (theta / 2)) * h
  · apply Vector3.ext <;>
      simp only [UnitQuaternion.angvec, UnitQuaternion.rotate, UnitQuaternion.mul,
        UnitQuaternion.inv, Vector3.dot, Vector3.add, Vector3.smul, Vector3.cross] <;>
      ring

/-- The real square root satisfies the contract of `sqrt`. -/
theorem MathToolbox.sqrtExact_real (c s : ℝ → ℝ) (ta : UnitQuaternion ℝ → AngVec ℝ)
    (r : Matrix (Fin 3) (Fin 3) ℝ → UnitQuaternion ℝ) :
    (MathToolbox.mk Real.sqrt c s ta r).SqrtExact :=
  ⟨fun x => Real.sqrt_nonneg x, fun _ hx => Real.mul_self_sqrt hx⟩

/-- The real cosine and sine satisfy the contract of `cos` and `sin`. -/
theorem MathToolbox.trigExact_real (q : ℝ → ℝ) (ta : UnitQuaternion ℝ → AngVec ℝ)
    (r : Matrix (Fin 3) (Fin 3) ℝ → UnitQuaternion ℝ) :
    (MathToolbox.mk q Real.cos Real.sin ta r).TrigExact := by
  refine ⟨Real.cos_zero, Real.sin_zero, fun x => ?_⟩
  have h := Real.cos_sq_add_sin_sq x
  simp only [pow_two] at h
  exact h

end Lemmas

/-! ## Sampling: `getDeltaQuat`, `getQuaternion` -/

section Sampling

variable {R : Type} [LinearOrderedField R] {σ : Type}

open Rotation_Const_Axis_Traj

/-- C1: `getQuaternion(t)` is `getDeltaQuat(t)` multiplied on the left of the stored
initial quaternion, for every state and time; the right-hand composition
`initial_quat * getDeltaQuat(t)` is a different quaternion in general (shown at the
angle `π` about `z` from the initial quaternion `(0, 1, 0, 0)`); and with axis
`(0, 0, 1)`, identity initial quaternion and `θ(1) = π/2` the value `getQuaternion(1)`
is `(√2/2, 0, 0, √2/2)`, the rotation by 90 degrees about `z`, which takes the `x`
axis to the `y` axis. -/
theorem getQuaternion_eq_deltaQuat_mul_initial :
    (∀ (R : Type) [LinearOrderedField R] (σ : Type) (M : MathToolbox R)
        (I : Scalar_Traj_Interface R σ) (S : Rotation_Const_Axis_Traj R σ) (t : R),
        getQuaternion M I S t = UnitQuaternion.mul (getDeltaQuat M I S t) S._initial_quat) ∧
    (∀ (σ : Type) (M : MathToolbox ℝ) (I : Scalar_Traj_Interface ℝ σ)
        (S : Rotation_Const_Axis_Traj ℝ σ) (t : ℝ),
        M.cos = Real.cos → M.sin = Real.sin →
        S._axis = ⟨0, 0, 1⟩ → S._initial_quat = ⟨0, ⟨1, 0, 0⟩⟩ →
        I.getPosition S._traj_theta t = Real.pi →
        getQuaternion M I S t = ⟨0, ⟨0, 1, 0⟩⟩ ∧
        UnitQuaternion.mul S._initial_quat (getDeltaQuat M I S t) = ⟨0, ⟨0, -1, 0⟩⟩ ∧
        getQuaternion M I S t ≠ UnitQuaternion.mul S._initial_quat (getDeltaQuat M I S t)) ∧
    (∀ (σ : Type) (M : MathToolbox ℝ) (I : Scalar_Traj_Interface ℝ σ)
        (S : Rotation_Const_Axis_Traj ℝ σ),
        M.cos = Real.cos → M.sin = Real.sin →
        S._axis = ⟨0, 0, 1⟩ → S._initial_quat = UnitQuaternion.identity →
        I.getPosition S._traj_theta 1 = Real.pi / 2 →
        getQuaternion M I S 1 = ⟨√2 / 2, ⟨0, 0, √2 / 2⟩⟩ ∧
        UnitQuaternion.rotate (getQuaternion M I S 1) ⟨1, 0, 0⟩ = ⟨0, 1, 0⟩) := by
  refine ⟨fun R _ σ M I S t => rfl, ?_, ?_⟩
  · intro σ M I S t hc hs ha hq hp
    have hne : S._axis ≠ Vector3.Zeros := by
      rw [ha]
      intro h
      have hz := congrArg Vector3.z h
      simp [Vector3.Zeros] at hz
    have hd : getDeltaQuat M I S t = ⟨0, ⟨0, 0, 1⟩⟩ := by
      rw [getDeltaQuat_of_axis_ne M I S hne t, hp, ha]
      simp [UnitQuaternion.angvec, Vector3.smul, hc, hs]
    have h1 : getQuaternion M I S t = ⟨0, ⟨0, 1, 0⟩⟩ := by
      unfold getQuaternion
      rw [hd, hq]
      simp [UnitQuaternion.mul, Vector3.dot, Vector3.add, Vector3.smul, Vector3.cross]
    have h2 : UnitQuaternion.mul S._initial_quat (getDeltaQuat M I S t) = ⟨0, ⟨0, -1, 0⟩⟩ := by
      rw [hd, hq]
      simp [UnitQuaternion.mul, Vector3.dot, Vector3.add, Vector3.smul, Vector3.cross]
    refine ⟨h1, h2, ?_⟩
    rw [h1, h2]
    intro h
    have hy := congrArg (fun q : UnitQuaternion ℝ => q.v.y) h
    norm_num at hy
  · intro σ M I S hc hs ha hq hp
    have hne : S._axis ≠ Vector3.Zeros := by
      rw [ha]
      intro h
      have hz := congrArg Vector3.z h
      simp [Vector3.Zeros] at hz
    have h4 : Real.pi / 2 / 2 = Real.pi / 4 := by ring
    have h1 : getQuaternion M I S 1 = ⟨√2 / 2, ⟨0, 0, √2 / 2⟩⟩ := by
      unfold getQuaternion
      rw [getDeltaQuat_of_axis_ne M I S hne 1, hp, ha, hq]
      simp [UnitQuaternion.angvec, UnitQuaternion.mul, UnitQuaternion.identity, Vector3.dot,
        Vector3.add, Vector3.smul, Vector3.cross, Vector3.Zeros, hc, hs, h4]
    refine ⟨h1, ?_⟩
    rw [h1]
    have h2 : (√2 : ℝ) * √2 = 2 := Real.mul_self_sqrt (by norm_num)
    apply Vector3.ext
    · simp only [UnitQuaternion.rotate, UnitQuaternion.mul, UnitQuaternion.inv, Vector3.dot,
        Vector3.add, Vector3.smul, Vector3.cross]
      nlinarith [h2]
    · simp only [UnitQuaternion.rotate, UnitQuaternion.mul, UnitQuaternion.inv, Vector3.dot,
        Vector3.add, Vector3.smul, Vector3.cross]
      nlinarith [h2]
    · simp only [UnitQuaternion.rotate, UnitQuaternion.mul, UnitQuaternion.inv, Vector3.dot,
        Vector3.add, Vector3.smul, Vector3.cross]
      nlinarith [h2]

/-- Instance of C1 over the reals: the scenario with the linear sweep from `0` to `π/2`
over `[0, 1]` as scalar generator. -/
theorem getQuaternion_eq_deltaQuat_mul_initial_witness :
    ∃ M : MathToolbox ℝ, M.sqrt = Real.sqrt ∧ M.cos = Real.cos ∧ M.sin = Real.sin ∧
      getQuaternion M Linear_Traj.interface
        { _initial_quat := UnitQuaternion.identity, _axis := ⟨0, 0, 1⟩,
          _traj_theta := ⟨0, 1, 0, Real.pi / 2⟩ } 1 = ⟨√2 / 2, ⟨0, 0, √2 / 2⟩⟩ := by
  refine ⟨MathToolbox.mk Real.sqrt Real.cos Real.sin (fun q => ⟨0, q.v⟩)
    (fun _ => UnitQuaternion.identity), rfl, rfl, rfl, ?_⟩
  exact (getQuaternion_eq_deltaQuat_mul_initial.2.2 _ _ Linear_Traj.interface _ rfl rfl rfl rfl
    (by simp [Linear_Traj.interface])).1

/-- C2: on a generator whose stored axis is a unit vector `a`, at a time where the
scalar generator's position is `theta`, `getDeltaQuat` is the axis-angle quaternion
`(cos(theta/2), sin(theta/2) * a)`. -/
theorem getDeltaQuat_eq_axis_angle (M : MathToolbox R) (hM : M.SqrtExact)
    (I : Scalar_Traj_Interface R σ) (S : Rotation_Const_Axis_Traj R σ)
    (a : Vector3 R) (theta t : R)
    (ha : Vector3.norm M a = 1) (hS : S._axis = a)
    (hθ : I.getPosition S._traj_theta t = theta) :
    getDeltaQuat M I S t = ⟨M.cos (theta / 2), Vector3.smul (M.sin (theta / 2)) a⟩ := by
  have hne : S._axis ≠ Vector3.Zeros := by
    rw [hS]
    exact Vector3.ne_Zeros_of_norm_eq_one hM ha
  rw [getDeltaQuat_of_axis_ne M I S hne t, hθ, hS]
  rfl

/-- Instance of C2 over the reals: axis `(0, 0, 1)`, angle `1` at time `0`. -/
theorem getDeltaQuat_eq_axis_angle_witness :
    ∃ M : MathToolbox ℝ, M.sqrt = Real.sqrt ∧ M.cos = Real.cos ∧ M.sin = Real.sin ∧
      getDeltaQuat M Linear_Traj.interface
        { _initial_quat := UnitQuaternion.identity, _axis := ⟨0, 0, 1⟩,
          _traj_theta := ⟨0, 1, 1, 0⟩ } 0 =
        ⟨Real.cos (1 / 2), Vector3.smul (Real.sin (1 / 2)) ⟨0, 0, 1⟩⟩ :=
  ⟨MathToolbox.mk Real.sqrt Real.cos Real.sin (fun q => ⟨0, q.v⟩) (fun _ => UnitQuaternion.identity),
    rfl, rfl, rfl,
    getDeltaQuat_eq_axis_angle _ (MathToolbox.sqrtExact_real _ _ _ _) Linear_Traj.interface
      _ ⟨0, 0, 1⟩ 1 0 (by simp [Vector3.norm, Vector3.dot]) rfl
      (by simp [Linear_Traj.interface])⟩

/-- C3: a generator built from the zero axis, or whose axis was set to the zero vector,
does not rotate, whatever the scalar generator (also one installed afterwards by
`setScalarTraj`) and at every time: `getDeltaQuat` is the identity, `getQuaternion` is
the initial quaternion, `getVelocity` and `getAcceleration` are zero. -/
theorem zero_axis_no_rotation (M : MathToolbox R) (hM : M.SqrtExact)
    (I : Scalar_Traj_Interface R σ) (q0 : UnitQuaternion R) (s s' : σ)
    (S : Rotation_Const_Axis_Traj R σ) :
    (fromAxis M I q0 Vector3.Zeros s)._axis = Vector3.Zeros ∧
    (fromAxis M I q0 Vector3.Zeros s)._initial_quat = q0 ∧
    NoRotation M I (fromAxis M I q0 Vector3.Zeros s) ∧
    (setAxis M S Vector3.Zeros)._axis = Vector3.Zeros ∧
    (setAxis M S Vector3.Zeros)._initial_quat = S._initial_quat ∧
    NoRotation M I (setAxis M S Vector3.Zeros) ∧
    NoRotation M I (setScalarTraj I (setAxis M S Vector3.Zeros) s') ∧
    NoRotation M I (setScalarTraj I (fromAxis M I q0 Vector3.Zeros s) s') := by
  rw [fromAxis_Zeros hM, setAxis_Zeros hM]
  refine ⟨rfl, rfl, ?_, rfl, rfl, ?_, ?_, ?_⟩ <;>
    exact fun t => sample_of_axis_Zeros M I _ rfl t

/-- Instance of C3 over the reals: the axis of a generator with axis `(0, 0, 1)` and a
moving scalar generator is set to zero. -/
theorem zero_axis_no_rotation_witness :
    ∃ M : MathToolbox ℝ, M.sqrt = Real.sqrt ∧ M.cos = Real.cos ∧ M.sin = Real.sin ∧
      NoRotation M Linear_Traj.interface
        (setAxis M
          { _initial_quat := ⟨0, ⟨1, 0, 0⟩⟩, _axis := ⟨0, 0, 1⟩, _traj_theta := ⟨0, 1, 0, 2⟩ }
          Vector3.Zeros) :=
  ⟨MathToolbox.mk Real.sqrt Real.cos Real.sin (fun q => ⟨0, q.v⟩) (fun _ => UnitQuaternion.identity),
    rfl, rfl, rfl,
    (zero_axis_no_rotation _ (MathToolbox.sqrtExact_real _ _ _ _) Linear_Traj.interface
      UnitQuaternion.identity ⟨0, 1, 0, 2⟩ ⟨0, 1, 0, 2⟩ _).2.2.2.2.2.1⟩

/-- C6, the claim fails: the generator with the zero axis, initial quaternion
`(0, 1, 0, 0)` and the angle law `θ(τ) = τ` has at time `1` the orientation
`initial_quat` although the scalar generator's position there is `1`, not `0`. -/
theorem getQuaternion_eq_initial_at_nonzero_angle :
    ∃ M : MathToolbox ℝ, M.sqrt = Real.sqrt ∧ M.cos = Real.cos ∧ M.sin = Real.sin ∧
      getQuaternion M Linear_Traj.interface
          { _initial_quat := ⟨0, ⟨1, 0, 0⟩⟩, _axis := Vector3.Zeros,
            _traj_theta := ⟨0, 1, 0, 1⟩ } 1 = ⟨0, ⟨1, 0, 0⟩⟩ ∧
      Linear_Traj.interface.getPosition (⟨0, 1, 0, 1⟩ : Linear_Traj ℝ) 1 = 1 ∧
      ¬ (getQuaternion M Linear_Traj.interface
            { _initial_quat := ⟨0, ⟨1, 0, 0⟩⟩, _axis := Vector3.Zeros,
              _traj_theta := ⟨0, 1, 0, 1⟩ } 1 = ⟨0, ⟨1, 0, 0⟩⟩ ↔
          Linear_Traj.interface.getPosition (⟨0, 1, 0, 1⟩ : Linear_Traj ℝ) 1 = 0) := by
  have hq : getQuaternion
      (MathToolbox.mk Real.sqrt Real.cos Real.sin (fun q => ⟨0, q.v⟩)
        (fun _ => UnitQuaternion.identity)) Linear_Traj.interface
      { _initial_quat := ⟨0, ⟨1, 0, 0⟩⟩, _axis := Vector3.Zeros,
        _traj_theta := ⟨0, 1, 0, 1⟩ } 1 = ⟨0, ⟨1, 0, 0⟩⟩ :=
    (sample_of_axis_Zeros _ _ _ rfl 1).2.1
  have hp : Linear_Traj.interface.getPosition (⟨0, 1, 0, 1⟩ : Linear_Traj ℝ) 1 = 1 := by
    simp [Linear_Traj.interface]
  refine ⟨_, rfl, rfl, rfl, hq, hp, fun h => ?_⟩
  have h0 := h.mp hq
  rw [hp] at h0
  exact one_ne_zero h0

/-- C6, amended: when the scalar generator's position at `t0` is `0`, `getQuaternion(t0)`
is the initial quaternion; and when the stored axis is the zero sentinel,
`getQuaternion(t0)` is the initial quaternion at every time, whatever the position. -/
theorem getQuaternion_eq_initial_of_zero_angle (M : MathToolbox R) (hT : M.TrigExact)
    (I : Scalar_Traj_Interface R σ) (S : Rotation_Const_Axis_Traj R σ) (t0 : R) :
    (I.getPosition S._traj_theta t0 = 0 → getQuaternion M I S t0 = S._initial_quat) ∧
    (S._axis = Vector3.Zeros → getQuaternion M I S t0 = S._initial_quat) := by
  obtain ⟨hc0, hs0, _⟩ := hT
  have hzero : S._axis = Vector3.Zeros → getQuaternion M I S t0 = S._initial_quat :=
    fun h => (sample_of_axis_Zeros M I S h t0).2.1
  refine ⟨fun hp => ?_, hzero⟩
  by_cases hax : S._axis = Vector3.Zeros
  · exact hzero hax
  · unfold getQuaternion
    rw [getDeltaQuat_of_axis_ne M I S hax t0, hp]
    have h0 : UnitQuaternion.angvec M 0 S._axis = UnitQuaternion.identity := by
      simp [UnitQuaternion.angvec, UnitQuaternion.identity, Vector3.smul, Vector3.Zeros, hc0,
        hs0]
    rw [h0, UnitQuaternion.identity_mul]

/-- Instance of the amended C6 over the reals: axis `(0, 0, 1)` and the angle law
`θ(τ) = 2 τ`; at time `0` the angle is `0` and the orientation is the initial quaternion. -/
theorem getQuaternion_eq_initial_of_zero_angle_witness :
    ∃ M : MathToolbox ℝ, M.sqrt = Real.sqrt ∧ M.cos = Real.cos ∧ M.sin = Real.sin ∧
      getQuaternion M Linear_Traj.interface
        { _initial_quat := ⟨0, ⟨1, 0, 0⟩⟩, _axis := ⟨0, 0, 1⟩,
          _traj_theta := ⟨0, 1, 0, 2⟩ } 0 = ⟨0, ⟨1, 0, 0⟩⟩ :=
  ⟨MathToolbox.mk Real.sqrt Real.cos Real.sin (fun q => ⟨0, q.v⟩)
    (fun _ => UnitQuaternion.identity), rfl, rfl, rfl,
    (getQuaternion_eq_initial_of_zero_angle _ (MathToolbox.trigExact_real _ _ _)
      Linear_Traj.interface
      { _initial_quat := ⟨0, ⟨1, 0, 0⟩⟩, _axis := ⟨0, 0, 1⟩, _traj_theta := ⟨0, 1, 0, 2⟩ } 0).1
      (by simp [Linear_Traj.interface])⟩

end Sampling

/-! ## The stored axis -/

section Axis

variable {R : Type} [LinearOrderedField R] {σ : Type}

open Rotation_Const_Axis_Traj

/-- C4: the explicit-axis constructor and `setAxis` always return a generator (there is
no failure outcome); with `epsilon = 2^-52`, the stored axis is exactly zero when
`norm(v) < 10 * epsilon` and `v / norm(v)` otherwise, the other members being the given
initial quaternion and the clone of the given scalar generator; an axis of norm `1e-16`
is stored as zero and `getQuaternion(t)` is then the initial quaternion at every `t`. -/
theorem axis_zero_below_tolerance (M : MathToolbox R) (I : Scalar_Traj_Interface R σ)
    (q0 : UnitQuaternion R) (s : σ) (S : Rotation_Const_Axis_Traj R σ) (v : Vector3 R) :
    (epsilon : R) = 1 / 2 ^ 52 ∧
    (fromAxis M I q0 v s)._initial_quat = q0 ∧
    (fromAxis M I q0 v s)._traj_theta = I.clone s ∧
    (setAxis M S v)._initial_quat = S._initial_quat ∧
    (setAxis M S v)._traj_theta = S._traj_theta ∧
    (Vector3.norm M v < 10 * epsilon →
      (fromAxis M I q0 v s)._axis = Vector3.Zeros ∧ (setAxis M S v)._axis = Vector3.Zeros) ∧
    (¬ Vector3.norm M v < 10 * epsilon →
      (fromAxis M I q0 v s)._axis
        = ⟨v.x / Vector3.norm M v, v.y / Vector3.norm M v, v.z / Vector3.norm M v⟩ ∧
      (setAxis M S v)._axis
        = ⟨v.x / Vector3.norm M v, v.y / Vector3.norm M v, v.z / Vector3.norm M v⟩) ∧
    (Vector3.norm M v = 1 / 10 ^ 16 →
      (fromAxis M I q0 v s)._axis = Vector3.Zeros ∧ (setAxis M S v)._axis = Vector3.Zeros ∧
      ∀ t, getQuaternion M I (fromAxis M I q0 v s) t = q0 ∧
        getQuaternion M I (setAxis M S v) t = S._initial_quat) := by
  have hunit : Vector3.unit M v
      = ⟨v.x / Vector3.norm M v, v.y / Vector3.norm M v, v.z / Vector3.norm M v⟩ := by
    simp only [Vector3.unit, Vector3.smul]
    apply Vector3.ext <;> simp only [one_div, inv_mul_eq_div]
  have hlt : Vector3.norm M v < 10 * epsilon →
      (fromAxis M I q0 v s)._axis = Vector3.Zeros ∧ (setAxis M S v)._axis = Vector3.Zeros := by
    intro h
    simp only [fromAxis, setAxis, if_pos h, and_self]
  refine ⟨rfl, ?_, ?_, ?_, ?_, hlt, ?_, ?_⟩
  · unfold fromAxis
    split <;> rfl
  · unfold fromAxis
    split <;> rfl
  · unfold setAxis
    split <;> rfl
  · unfold setAxis
    split <;> rfl
  · intro h
    simp only [fromAxis, setAxis, if_neg h, hunit, and_self]
  · intro h
    have hsmall : Vector3.norm M v < 10 * epsilon := by
      rw [h]
      unfold epsilon
      rw [div_lt_iff₀ (by positivity)]
      norm_num
    obtain ⟨h1, h2⟩ := hlt hsmall
    refine ⟨h1, h2, fun t => ⟨?_, ?_⟩⟩
    · rw [(sample_of_axis_Zeros M I _ h1 t).2.1]
      unfold fromAxis
      split <;> rfl
    · rw [(sample_of_axis_Zeros M I _ h2 t).2.1]
      unfold setAxis
      split <;> rfl

/-- Instance of C4 over the reals: the axis `(1e-16, 0, 0)` has norm `1e-16` and the
generator built from it keeps the initial quaternion at every time. -/
theorem axis_zero_below_tolerance_witness :
    ∃ M : MathToolbox ℝ, M.sqrt = Real.sqrt ∧ M.cos = Real.cos ∧ M.sin = Real.sin ∧
      Vector3.norm M ⟨1 / 10 ^ 16, 0, 0⟩ = 1 / 10 ^ 16 ∧
      ∀ t, getQuaternion M Linear_Traj.interface
        (fromAxis M Linear_Traj.interface ⟨0, ⟨1, 0, 0⟩⟩ ⟨1 / 10 ^ 16, 0, 0⟩ ⟨0, 1, 0, 2⟩) t
          = ⟨0, ⟨1, 0, 0⟩⟩ := by
  have hn : Vector3.norm
      (MathToolbox.mk Real.sqrt Real.cos Real.sin (fun q => ⟨0, q.v⟩)
        (fun _ => UnitQuaternion.identity)) ⟨1 / 10 ^ 16, 0, 0⟩ = 1 / 10 ^ 16 := by
    simp only [Vector3.norm, Vector3.dot, mul_zero, add_zero]
    exact Real.sqrt_mul_self (by positivity)
  exact ⟨_, rfl, rfl, rfl, hn, fun t =>
    (((axis_zero_below_tolerance _ Linear_Traj.interface ⟨0, ⟨1, 0, 0⟩⟩ ⟨0, 1, 0, 2⟩
      ⟨UnitQuaternion.identity, Vector3.Zeros, ⟨0, 1, 0, 2⟩⟩ ⟨1 / 10 ^ 16, 0, 0⟩).2.2.2.2.2.2.2 hn).2.2
        t).1⟩

/-- C5: the stored axis is unit-norm or exactly zero after the explicit-axis constructor,
after the initial/final-quaternion constructor (on unit quaternions) and after a copy, and
every mutator keeps it so: `setAxis` with any vector, `setInitialQuat`, `setScalarTraj`,
`changeInitialTime`, and `changeFrame` with any unit quaternion or rotation matrix. -/
theorem axis_unit_or_zero (M : MathToolbox R) (hM : M.SqrtExact) (hA : M.AngVecExact)
    (hO : M.OfRotationExact) (I : Scalar_Traj_Interface R σ) :
    (∀ q0 v s, Vector3.UnitOrZero M (fromAxis M I q0 v s)._axis) ∧
    (∀ qi qf s, qi.IsUnit → qf.IsUnit →
      Vector3.UnitOrZero M (fromQuats M I qi qf s).1._axis) ∧
    (∀ S : Rotation_Const_Axis_Traj R σ, Vector3.UnitOrZero M S._axis →
      Vector3.UnitOrZero M (copy I S)._axis ∧
      Vector3.UnitOrZero M (clone I S)._axis ∧
      (∀ v, Vector3.UnitOrZero M (setAxis M S v)._axis) ∧
      (∀ q, Vector3.UnitOrZero M (setInitialQuat S q)._axis) ∧
      (∀ s, Vector3.UnitOrZero M (setScalarTraj I S s)._axis) ∧
      (∀ t0, Vector3.UnitOrZero M (changeInitialTime I S t0)._axis) ∧
      (∀ Q, Q.IsUnit → Vector3.UnitOrZero M (changeFrame S Q)._axis) ∧
      (∀ A, IsRotationMatrix A → Vector3.UnitOrZero M (changeFrameR M S A)._axis)) := by
  refine ⟨fun q0 v s => ?_, fun qi qf s hi hf => ?_, fun S hS => ?_⟩
  · unfold fromAxis
    split
    · exact Or.inr rfl
    · next h => exact Or.inl (Vector3.norm_unit hM v h)
  · have hD : (UnitQuaternion.mul qf (UnitQuaternion.inv qi)).IsUnit := by
      unfold UnitQuaternion.IsUnit at *
      rw [UnitQuaternion.normSq_mul, UnitQuaternion.normSq_inv, hi, hf, one_mul]
    have hax := hA _ hD
    unfold fromQuats
    simp only
    split
    · exact Or.inr rfl
    · exact hax
  · refine ⟨hS, hS, fun v => ?_, fun _ => hS, fun _ => hS, fun _ => hS, fun Q hQ => ?_,
      fun A hR => ?_⟩
    · unfold setAxis
      split
      · exact Or.inr rfl
      · next h => exact Or.inl (Vector3.norm_unit hM v h)
    · exact Vector3.UnitOrZero.rotate hQ hS
    · exact Vector3.UnitOrZero.rotate (hO A hR) hS

/-- Instance of C5 over the reals, with an axis-angle extraction that returns the angle
`2 * arccos s` about the normalised vector part: the generator built from the initial
quaternion `(1, 0, 0, 0)` and the final quaternion `(0, 0, 0, 1)`, with axis then set to
`(3, 4, 0)` and moved to the frame turned by half a turn about `z`. -/
theorem axis_unit_or_zero_witness :
    ∃ M : MathToolbox ℝ, M.sqrt = Real.sqrt ∧ M.AngVecExact ∧ M.OfRotationExact ∧
      (fromQuats M Linear_Traj.interface UnitQuaternion.identity ⟨0, ⟨0, 0, 1⟩⟩
        ⟨0, 1, 0, 2⟩).1._axis = ⟨0, 0, 1⟩ ∧
      Vector3.UnitOrZero M
        (fromQuats M Linear_Traj.interface UnitQuaternion.identity ⟨0, ⟨0, 0, 1⟩⟩
          ⟨0, 1, 0, 2⟩).1._axis ∧
      Vector3.UnitOrZero M
        (changeFrame
          (setAxis M
            (fromQuats M Linear_Traj.interface UnitQuaternion.identity ⟨0, ⟨0, 0, 1⟩⟩
              ⟨0, 1, 0, 2⟩).1
            ⟨3, 4, 0⟩)
          ⟨0, ⟨0, 0, 1⟩⟩)._axis := by
  have hM := MathToolbox.sqrtExact_real Real.cos Real.sin
    (fun q => if Real.sqrt (Vector3.dot q.v q.v) < 10 * epsilon then ⟨0, Vector3.Zeros⟩
      else ⟨2 * Real.arccos q.s, Vector3.smul (1 / Real.sqrt (Vector3.dot q.v q.v)) q.v⟩)
    (fun _ => UnitQuaternion.identity)
  have hA : (MathToolbox.mk Real.sqrt Real.cos Real.sin
      (fun q => if Real.sqrt (Vector3.dot q.v q.v) < 10 * epsilon then ⟨0, Vector3.Zeros⟩
        else ⟨2 * Real.arccos q.s, Vector3.smul (1 / Real.sqrt (Vector3.dot q.v q.v)) q.v⟩)
      (fun _ => UnitQuaternion.identity)).AngVecExact := by
    intro q _
    show Vector3.UnitOrZero _
      (if Real.sqrt (Vector3.dot q.v q.v) < 10 * epsilon then (⟨0, Vector3.Zeros⟩ : AngVec ℝ)
        else ⟨2 * Real.arccos q.s,
          Vector3.smul (1 / Real.sqrt (Vector3.dot q.v q.v)) q.v⟩).vec
    split
    · exact Or.inr rfl
    · next hlt => exact Or.inl (Vector3.norm_unit hM q.v hlt)
  have hO : (MathToolbox.mk Real.sqrt Real.cos Real.sin
      (fun q => if Real.sqrt (Vector3.dot q.v q.v) < 10 * epsilon then ⟨0, Vector3.Zeros⟩
        else ⟨2 * Real.arccos q.s, Vector3.smul (1 / Real.sqrt (Vector3.dot q.v q.v)) q.v⟩)
      (fun _ => UnitQuaternion.identity)).OfRotationExact := fun _ _ => by
    simp [UnitQuaternion.IsUnit, UnitQuaternion.normSq, UnitQuaternion.identity, Vector3.dot,
      Vector3.Zeros]
  have h := axis_unit_or_zero _ hM hA hO Linear_Traj.interface
  have hi : (UnitQuaternion.identity : UnitQuaternion ℝ).IsUnit := by
    simp [UnitQuaternion.IsUnit, UnitQuaternion.normSq, UnitQuaternion.identity, Vector3.dot,
      Vector3.Zeros]
  have hf : (⟨0, ⟨0, 0, 1⟩⟩ : UnitQuaternion ℝ).IsUnit := by
    simp [UnitQuaternion.IsUnit, UnitQuaternion.normSq, Vector3.dot]
  have hq := h.2.1 UnitQuaternion.identity ⟨0, ⟨0, 0, 1⟩⟩ ⟨0, 1, 0, 2⟩ hi hf
  refine ⟨_, rfl, hA, hO, ?_, hq, ?_⟩
  · have hε : ¬ ((1 : ℝ) < 10 * epsilon) := by
      unfold epsilon
      norm_num
    simp [fromQuats, UnitQuaternion.mul, UnitQuaternion.inv, UnitQuaternion.identity,
      Vector3.norm, Vector3.dot, Vector3.add, Vector3.smul, Vector3.cross, Vector3.Zeros, hε]
  · exact (h.2.2 _ ((h.2.2 _ hq).2.2.1 ⟨3, 4, 0⟩)).2.2.2.2.2.2.1 ⟨0, ⟨0, 0, 1⟩⟩ hf

end Axis

/-! ## Change of reference frame -/

section Frame

variable {R : Type} [LinearOrderedField R] {σ : Type}

open Rotation_Const_Axis_Traj

/-- C7: for a unit quaternion `Q`, `changeFrame(Q)` followed by `changeFrame(inv Q)`
restores the initial quaternion and the axis, and the scalar generator is untouched: the
generator is back in its original state. -/
theorem changeFrame_round_trip (S : Rotation_Const_Axis_Traj R σ) (Q : UnitQuaternion R)
    (hQ : Q.IsUnit) :
    (changeFrame (changeFrame S Q) (UnitQuaternion.inv Q))._initial_quat = S._initial_quat ∧
    (changeFrame (changeFrame S Q) (UnitQuaternion.inv Q))._axis = S._axis ∧
    (changeFrame (changeFrame S Q) (UnitQuaternion.inv Q))._traj_theta = S._traj_theta ∧
    (changeFrame S Q)._traj_theta = S._traj_theta ∧
    changeFrame (changeFrame S Q) (UnitQuaternion.inv Q) = S := by
  have h1 : (changeFrame (changeFrame S Q) (UnitQuaternion.inv Q))._initial_quat
      = S._initial_quat := by
    simp only [changeFrame]
    rw [← UnitQuaternion.mul_assoc, UnitQuaternion.inv_mul_cancel hQ,
      UnitQuaternion.identity_mul]
  have h2 : (changeFrame (changeFrame S Q) (UnitQuaternion.inv Q))._axis = S._axis := by
    simp only [changeFrame]
    exact UnitQuaternion.rotate_inv_rotate hQ _
  refine ⟨h1, h2, rfl, rfl, ?_⟩
  cases S
  simp only [changeFrame] at h1 h2 ⊢
  rw [h1, h2]

/-- Instance of C7 over the rationals, with the unit quaternion `(3/5, 4/5, 0, 0)`. -/
theorem changeFrame_round_trip_witness :
    changeFrame
      (changeFrame
        ({ _initial_quat := ⟨0, ⟨0, 1, 0⟩⟩, _axis := ⟨0, 0, 1⟩, _traj_theta := ⟨0, 1, 0, 2⟩ } :
          Rotation_Const_Axis_Traj ℚ (Linear_Traj ℚ))
        ⟨3 / 5, ⟨4 / 5, 0, 0⟩⟩)
      (UnitQuaternion.inv ⟨3 / 5, ⟨4 / 5, 0, 0⟩⟩)
    = { _initial_quat := ⟨0, ⟨0, 1, 0⟩⟩, _axis := ⟨0, 0, 1⟩, _traj_theta := ⟨0, 1, 0, 2⟩ } :=
  (changeFrame_round_trip _ ⟨3 / 5, ⟨4 / 5, 0, 0⟩⟩
    (by norm_num [UnitQuaternion.IsUnit, UnitQuaternion.normSq, Vector3.dot])).2.2.2.2

/-- C8: for a unit quaternion `Q` and a state whose axis is unit or zero, after
`changeFrame(Q)` the orientation at every time is `Q` composed with the orientation before
the call, and the angular velocity and acceleration are the vectors before the call
rotated by `Q`. -/
theorem changeFrame_outputs (M : MathToolbox R) (I : Scalar_Traj_Interface R σ)
    (S : Rotation_Const_Axis_Traj R σ) (Q : UnitQuaternion R) (hQ : Q.IsUnit)
    (_hS : Vector3.UnitOrZero M S._axis) (t : R) :
    getQuaternion M I (changeFrame S Q) t = UnitQuaternion.mul Q (getQuaternion M I S t) ∧
    getVelocity I (changeFrame S Q) t = UnitQuaternion.rotate Q (getVelocity I S t) ∧
    getAcceleration I (changeFrame S Q) t = UnitQuaternion.rotate Q (getAcceleration I S t) := by
  refine ⟨?_, ?_, ?_⟩
  · by_cases hax : S._axis = Vector3.Zeros
    · have h1 : (changeFrame S Q)._axis = Vector3.Zeros := by
        simp only [changeFrame, hax, UnitQuaternion.rotate_Zeros]
      rw [(sample_of_axis_Zeros M I _ h1 t).2.1, (sample_of_axis_Zeros M I S hax t).2.1]
      rfl
    · have h1 : (changeFrame S Q)._axis ≠ Vector3.Zeros :=
        UnitQuaternion.rotate_ne_Zeros hQ hax
      unfold getQuaternion
      rw [getDeltaQuat_of_axis_ne M I _ h1 t, getDeltaQuat_of_axis_ne M I S hax t]
      simp only [changeFrame]
      rw [UnitQuaternion.angvec_rotate M hQ, UnitQuaternion.mul_assoc,
        ← UnitQuaternion.mul_assoc (UnitQuaternion.inv Q), UnitQuaternion.inv_mul_cancel hQ,
        UnitQuaternion.identity_mul, UnitQuaternion.mul_assoc]
  · simp only [getVelocity, changeFrame]
    exact UnitQuaternion.smul_rotate _ _ _
  · simp only [getAcceleration, changeFrame]
    exact UnitQuaternion.smul_rotate _ _ _

/-- Instance of C8 over the reals: axis `(0, 0, 1)`, frame turned by half a turn about `x`. -/
theorem changeFrame_outputs_witness :
    ∃ M : MathToolbox ℝ, M.sqrt = Real.sqrt ∧ M.cos = Real.cos ∧ M.sin = Real.sin ∧
      ∀ t, getQuaternion M Linear_Traj.interface
          (changeFrame
            { _initial_quat := UnitQuaternion.identity, _axis := ⟨0, 0, 1⟩,
              _traj_theta := ⟨0, 1, 0, 2⟩ } ⟨0, ⟨1, 0, 0⟩⟩) t
        = UnitQuaternion.mul ⟨0, ⟨1, 0, 0⟩⟩
            (getQuaternion M Linear_Traj.interface
              { _initial_quat := UnitQuaternion.identity, _axis := ⟨0, 0, 1⟩,
                _traj_theta := ⟨0, 1, 0, 2⟩ } t) := by
  refine ⟨MathToolbox.mk Real.sqrt Real.cos Real.sin (fun q => ⟨0, q.v⟩)
    (fun _ => UnitQuaternion.identity), rfl, rfl, rfl, fun t => ?_⟩
  exact (changeFrame_outputs _ Linear_Traj.interface _ ⟨0, ⟨1, 0, 0⟩⟩
    (by simp [UnitQuaternion.IsUnit, UnitQuaternion.normSq, Vector3.dot])
    (Or.inl (by simp [Vector3.norm, Vector3.dot])) t).1

end Frame

/-! ## Angular velocity and acceleration -/

section Velocity

open Rotation_Const_Axis_Traj

/-- C9: `getVelocity(t)` is the scalar generator's velocity times the stored axis and
`getAcceleration(t)` its acceleration times the stored axis, for every state and time;
so the angular velocity is a scalar multiple of the axis and is zero when the axis is
the zero sentinel. With axis `(0, 0, 1)` and a scalar generator of velocity `π/2` on
`[0, 1]`, such as the linear sweep from `0` to `π/2` over `[0, 1]`, `getVelocity(t)` is
`(π/2) * (0, 0, 1)` for all `t` in `[0, 1]`. -/
theorem getVelocity_eq_rate_smul_axis :
    (∀ (R : Type) [LinearOrderedField R] (σ : Type) (I : Scalar_Traj_Interface R σ)
        (S : Rotation_Const_Axis_Traj R σ) (t : R),
        getVelocity I S t = Vector3.smul (I.getVelocity S._traj_theta t) S._axis ∧
        getAcceleration I S t = Vector3.smul (I.getAcceleration S._traj_theta t) S._axis ∧
        (∃ k : R, getVelocity I S t = Vector3.smul k S._axis) ∧
        (S._axis = Vector3.Zeros → getVelocity I S t = Vector3.Zeros)) ∧
    (∀ (σ : Type) (I : Scalar_Traj_Interface ℝ σ) (S : Rotation_Const_Axis_Traj ℝ σ),
        S._axis = ⟨0, 0, 1⟩ →
        (∀ t, 0 ≤ t → t ≤ 1 → I.getVelocity S._traj_theta t = Real.pi / 2) →
        ∀ t, 0 ≤ t → t ≤ 1 →
          getVelocity I S t = Vector3.smul (Real.pi / 2) ⟨0, 0, 1⟩ ∧
          getVelocity I S t = ⟨0, 0, Real.pi / 2⟩) ∧
    (Linear_Traj.interface.getPosition (⟨0, 1, 0, Real.pi / 2⟩ : Linear_Traj ℝ) 0 = 0 ∧
      Linear_Traj.interface.getPosition (⟨0, 1, 0, Real.pi / 2⟩ : Linear_Traj ℝ) 1
        = Real.pi / 2 ∧
      ∀ (q0 : UnitQuaternion ℝ) (t : ℝ), 0 ≤ t → t ≤ 1 →
        getVelocity Linear_Traj.interface
          { _initial_quat := q0, _axis := ⟨0, 0, 1⟩, _traj_theta := ⟨0, 1, 0, Real.pi / 2⟩ } t
        = Vector3.smul (Real.pi / 2) ⟨0, 0, 1⟩) := by
  refine ⟨fun R _ σ I S t => ⟨rfl, rfl, ⟨_, rfl⟩, fun h => ?_⟩, fun σ I S ha hv t h0 h1 => ?_,
    ?_, ?_, fun q0 t _ _ => rfl⟩
  · unfold getVelocity
    rw [h, Vector3.smul_Zeros]
  · unfold getVelocity
    rw [ha, hv t h0 h1]
    exact ⟨rfl, by simp [Vector3.smul]⟩
  · simp [Linear_Traj.interface]
  · simp [Linear_Traj.interface]

end Velocity

/-! ## Copies own their scalar generator -/

section Ownership

variable {R : Type} [LinearOrderedField R] {σ : Type}

open Rotation_Const_Axis_Traj

/-- One mutator call on a generator object `c` that owns its scalar generator leaves the
cell of any other allocated address `a` as it is, keeps `c` the owner of an allocated
cell different from `a`, and acts on the state of `c` as the call does. -/
theorem Rotation_Const_Axis_Traj.applyP_step (M : MathToolbox R) (I : Scalar_Traj_Interface R σ)
    (m : Mutation R σ) (h : Store σ) (c : Rotation_Const_Axis_Traj R Nat) (a : Nat) (sc : σ)
    (ha : a < h.next) (hc : c._traj_theta < h.next) (hne : c._traj_theta ≠ a)
    (hsc : h.cell c._traj_theta = some sc) :
    ∃ h1 c1 sc1, applyP M I m h c = some (h1, c1) ∧
      a < h1.next ∧ c1._traj_theta < h1.next ∧ c1._traj_theta ≠ a ∧
      h1.cell c1._traj_theta = some sc1 ∧ h1.cell a = h.cell a ∧
      h1.load c1 = (h.load c).map (apply M I m) := by
  cases m with
  | setAxis v =>
    refine ⟨h, setAxis M c v, sc, rfl, ha, ?_, ?_, ?_, rfl, ?_⟩
    · unfold setAxis; split <;> exact hc
    · unfold setAxis; split <;> exact hne
    · unfold setAxis; split <;> exact hsc
    · unfold Store.load setAxis apply setAxis
      rw [hsc]
      split <;> simp [hsc, *]
  | setInitialQuat q =>
    refine ⟨h, setInitialQuat c q, sc, rfl, ha, hc, hne, hsc, rfl, ?_⟩
    simp [Store.load, apply, setInitialQuat, hsc]
  | setScalarTraj s =>
    refine ⟨_, _, I.clone s, rfl, ?_, ?_, ?_, ?_, ?_, ?_⟩
    · simp only [Store.alloc]; omega
    · simp only [Store.alloc]; omega
    · simp only [Store.alloc]; omega
    · have h1 : h.next ≠ c._traj_theta := by omega
      simp [Store.alloc, Function.update_noteq h1]
    · have h1 : a ≠ c._traj_theta := fun e => hne e.symm
      have h2 : a ≠ h.next := by omega
      simp [Store.alloc, Function.update_noteq h1, Function.update_noteq h2]
    · have h1 : h.next ≠ c._traj_theta := by omega
      simp [Store.load, Store.alloc, apply, setScalarTraj, hsc, Function.update_noteq h1]
  | changeInitialTime t0 =>
    refine ⟨⟨Function.update h.cell c._traj_theta (some (I.changeInitialTime sc t0)), h.next⟩,
      c, I.changeInitialTime sc t0, ?_, ?_, ?_, hne, ?_, ?_, ?_⟩
    · simp only [applyP, changeInitialTimeP, hsc]
    · exact ha
    · exact hc
    · simp
    · have h1 : a ≠ c._traj_theta := fun e => hne e.symm
      simp [Function.update_noteq h1]
    · simp [Store.load, apply, changeInitialTime, hsc]
  | changeFrame Q =>
    refine ⟨h, changeFrame c Q, sc, rfl, ha, hc, hne, hsc, rfl, ?_⟩
    simp [Store.load, apply, changeFrame, hsc]
  | changeFrameR A =>
    refine ⟨h, changeFrameR M c A, sc, rfl, ha, hc, hne, hsc, rfl, ?_⟩
    simp [Store.load, apply, changeFrameR, changeFrame, hsc]

/-- A sequence of mutator calls, as `applyP_step`. -/
theorem Rotation_Const_Axis_Traj.applyAllP_steps (M : MathToolbox R)
    (I : Scalar_Traj_Interface R σ) (ms : List (Mutation R σ)) :
    ∀ (h : Store σ) (c : Rotation_Const_Axis_Traj R Nat) (a : Nat) (sc : σ),
      a < h.next → c._traj_theta < h.next → c._traj_theta ≠ a →
      h.cell c._traj_theta = some sc →
      ∃ h1 c1, applyAllP M I ms h c = some (h1, c1) ∧ h1.cell a = h.cell a ∧
        h1.load c1 = (h.load c).map (fun S => ms.foldl (fun T m => apply M I m T) S) := by
  induction ms with
  | nil =>
    intro h c a sc _ _ _ _
    exact ⟨h, c, rfl, rfl, by simp⟩
  | cons m ms ih =>
    intro h c a sc ha hc hne hsc
    obtain ⟨h1, c1, sc1, e1, ha1, hc1, hne1, hsc1, hcell1, hload1⟩ :=
      applyP_step M I m h c a sc ha hc hne hsc
    obtain ⟨h2, c2, e2, hcell2, hload2⟩ := ih h1 c1 a sc1 ha1 hc1 hne1 hsc1
    refine ⟨h2, c2, ?_, ?_, ?_⟩
    · simp only [applyAllP, e1, e2]
    · rw [hcell2, hcell1]
    · rw [hload2, hload1, Option.map_map]
      rfl

/-- The getters do not tell a generator from one that owns a clone of its scalar
generator. -/
theorem Rotation_Const_Axis_Traj.outputs_copy (M : MathToolbox R)
    (I : Scalar_Traj_Interface R σ) (hI : I.CloneExact) (S : Rotation_Const_Axis_Traj R σ)
    (t : R) : outputs M I (copy I S) t = outputs M I S t := by
  obtain ⟨hp, hv, ha, hi, hf⟩ := hI S._traj_theta
  simp only [outputs, copy, getAxis, getInitialQuat, getInitialTime, getFinalTime, getQuaternion,
    getDeltaQuat, getVelocity, getAcceleration, hp, hv, ha, hi, hf]

/-- C10: `clone()` and the copy constructor succeed on a generator that owns its scalar
generator `s`; the copy owns a clone of `s` at a new address, and all its getters
(`getAxis`, `getInitialQuat`, `getInitialTime`, `getFinalTime`, `getQuaternion(t)`,
`getVelocity(t)`, `getAcceleration(t)`) return what the original's return, for every `t`;
and after any sequence of mutator calls on the copy (`setAxis`, `setInitialQuat`,
`setScalarTraj`, `changeInitialTime`, `changeFrame`), which all succeed and act on the
copy as the calls do, every getter of the original returns what it returned before. -/
theorem clone_outputs_and_independence (M : MathToolbox R) (I : Scalar_Traj_Interface R σ)
    (hI : I.CloneExact) (h : Store σ) (o : Rotation_Const_Axis_Traj R Nat) (s : σ)
    (hs : h.cell o._traj_theta = some s) (hv : o._traj_theta < h.next) :
    ∃ h1 c, cloneP I h o = some (h1, c) ∧ copyP I h o = some (h1, c) ∧
      c._traj_theta ≠ o._traj_theta ∧
      h1.load c = (h.load o).map (copy I) ∧
      (∀ t, outputsP M I h o t = some (outputs M I
        { _initial_quat := o._initial_quat, _axis := o._axis, _traj_theta := s } t)) ∧
      (∀ t, outputsP M I h1 c t = outputsP M I h o t) ∧
      (∀ t, outputsP M I h1 o t = outputsP M I h o t) ∧
      (∀ ms : List (Mutation R σ), ∃ h2 c2, applyAllP M I ms h1 c = some (h2, c2) ∧
        h2.load c2 = (h1.load c).map (fun S => ms.foldl (fun T m => apply M I m T) S) ∧
        ∀ t, outputsP M I h2 o t = outputsP M I h o t) := by
  have hne : h.next ≠ o._traj_theta := by omega
  have hne2 : o._traj_theta ≠ h.next := by omega
  have hcopy : copyP I h o = some ((h.alloc (I.clone s)).1,
      { _initial_quat := o._initial_quat, _axis := o._axis, _traj_theta := h.next }) := by
    simp only [copyP, hs, Store.alloc]
  have hload : (h.alloc (I.clone s)).1.load
      ({ _initial_quat := o._initial_quat, _axis := o._axis, _traj_theta := h.next } :
        Rotation_Const_Axis_Traj R Nat) = (h.load o).map (copy I) := by
    simp [Store.load, Store.alloc, hs, copy]
  have hcell : (h.alloc (I.clone s)).1.cell o._traj_theta = h.cell o._traj_theta := by
    simp [Store.alloc, Function.update_noteq hne2]
  have hkeep : ∀ h2 : Store σ, h2.cell o._traj_theta = h.cell o._traj_theta →
      ∀ t, outputsP M I h2 o t = outputsP M I h o t := by
    intro h2 e t
    simp only [outputsP, Store.load, e]
  refine ⟨_, _, hcopy, hcopy, hne, hload, fun t => ?_, fun t => ?_, hkeep _ hcell, fun ms => ?_⟩
  · simp [outputsP, Store.load, hs]
  · simp only [outputsP, hload, Option.map_map]
    simp only [Store.load, hs, Option.map_some', Function.comp]
    rw [outputs_copy M I hI]
  · obtain ⟨h2, c2, e2, hcell2, hload2⟩ := applyAllP_steps M I ms (h.alloc (I.clone s)).1
      { _initial_quat := o._initial_quat, _axis := o._axis, _traj_theta := h.next }
      o._traj_theta (I.clone s)
      (by simp only [Store.alloc]; omega) (by simp only [Store.alloc]; omega) hne
      (by simp [Store.alloc])
    exact ⟨h2, c2, e2, hload2, hkeep h2 (hcell2.trans hcell)⟩

/-- Instance of C10 over the reals: a generator whose scalar generator is at address
`0` is cloned, then the start time of the copy is changed and its axis is set. -/
theorem clone_outputs_and_independence_witness :
    ∃ M : MathToolbox ℝ, M.sqrt = Real.sqrt ∧ M.cos = Real.cos ∧ M.sin = Real.sin ∧
      ∃ h1 c,
        cloneP Linear_Traj.interface
          (⟨fun a => if a = 0 then some ⟨0, 1, 0, 2⟩ else none, 1⟩ : Store (Linear_Traj ℝ))
          ({ _initial_quat := UnitQuaternion.identity, _axis := ⟨0, 0, 1⟩, _traj_theta := 0 } :
            Rotation_Const_Axis_Traj ℝ Nat) = some (h1, c) ∧
        (∀ t, outputsP M Linear_Traj.interface h1 c t
          = outputsP M Linear_Traj.interface
              (⟨fun a => if a = 0 then some ⟨0, 1, 0, 2⟩ else none, 1⟩ : Store (Linear_Traj ℝ))
              { _initial_quat := UnitQuaternion.identity, _axis := ⟨0, 0, 1⟩,
                _traj_theta := 0 } t) ∧
        ∃ h2 c2,
          applyAllP M Linear_Traj.interface
            [Mutation.changeInitialTime 5, Mutation.setAxis ⟨1, 0, 0⟩] h1 c = some (h2, c2) ∧
          ∀ t, outputsP M Linear_Traj.interface h2
              { _initial_quat := UnitQuaternion.identity, _axis := ⟨0, 0, 1⟩, _traj_theta := 0 } t
            = outputsP M Linear_Traj.interface
                (⟨fun a => if a = 0 then some ⟨0, 1, 0, 2⟩ else none, 1⟩ : Store (Linear_Traj ℝ))
                { _initial_quat := UnitQuaternion.identity, _axis := ⟨0, 0, 1⟩,
                  _traj_theta := 0 } t := by
  refine ⟨MathToolbox.mk Real.sqrt Real.cos Real.sin (fun q => ⟨0, q.v⟩)
    (fun _ => UnitQuaternion.identity), rfl, rfl, rfl, ?_⟩
  obtain ⟨h1, c, e1, _, _, _, _, hout, _, hms⟩ :=
    clone_outputs_and_independence
      (MathToolbox.mk Real.sqrt Real.cos Real.sin (fun q => ⟨0, q.v⟩)
        (fun _ => UnitQuaternion.identity)) Linear_Traj.interface
      (fun _ => ⟨fun _ => rfl, fun _ => rfl, fun _ => rfl, rfl, rfl⟩)
      (⟨fun a => if a = 0 then some ⟨0, 1, 0, 2⟩ else none, 1⟩ : Store (Linear_Traj ℝ))
      { _initial_quat := UnitQuaternion.identity, _axis := ⟨0, 0, 1⟩, _traj_theta := 0 }
      ⟨0, 1, 0, 2⟩ (by simp) (by simp)
  obtain ⟨h2, c2, e2, _, hkeep⟩ :=
    hms [Mutation.changeInitialTime 5, Mutation.setAxis ⟨1, 0, 0⟩]
  exact ⟨h1, c, e1, hout, h2, c2, e2, hkeep⟩

end Ownership

/-! ## Time window -/

section TimeWindow

variable {R : Type} [LinearOrderedField R] {σ : Type}

open Rotation_Const_Axis_Traj

/-- C11: `getInitialTime()` and `getFinalTime()` are those of the owned scalar generator
in every state (the getters read nothing but `_traj_theta`), and `changeInitialTime(t0)`
is the scalar generator's `changeInitialTime(t0)` and touches nothing else; so, when the
scalar generator's shift sets its start to `t0` and keeps its duration, afterwards
`getInitialTime() = t0` and `getFinalTime() - getInitialTime()` is what it was. -/
theorem time_window_of_scalar_generator (I : Scalar_Traj_Interface R σ)
    (S : Rotation_Const_Axis_Traj R σ) (t0 : R) :
    getInitialTime I S = I.getInitialTime S._traj_theta ∧
    getFinalTime I S = I.getFinalTime S._traj_theta ∧
    (changeInitialTime I S t0)._traj_theta = I.changeInitialTime S._traj_theta t0 ∧
    (changeInitialTime I S t0)._axis = S._axis ∧
    (changeInitialTime I S t0)._initial_quat = S._initial_quat ∧
    (I.ShiftExact →
      getInitialTime I (changeInitialTime I S t0) = t0 ∧
      getFinalTime I (changeInitialTime I S t0) - getInitialTime I (changeInitialTime I S t0)
        = getFinalTime I S - getInitialTime I S) := by
  refine ⟨rfl, rfl, rfl, rfl, rfl, fun hI => ?_⟩
  exact hI S._traj_theta t0

/-- Instance of C11 over the rationals: a generator over the window `[0, 1]` is moved to
start at `5`; its duration stays `1`. -/
theorem time_window_of_scalar_generator_witness :
    getInitialTime Linear_Traj.interface
      (changeInitialTime Linear_Traj.interface
        ({ _initial_quat := UnitQuaternion.identity, _axis := ⟨0, 0, 1⟩,
           _traj_theta := ⟨0, 1, 0, 2⟩ } : Rotation_Const_Axis_Traj ℚ (Linear_Traj ℚ)) 5) = 5 ∧
    getFinalTime Linear_Traj.interface
        (changeInitialTime Linear_Traj.interface
          ({ _initial_quat := UnitQuaternion.identity, _axis := ⟨0, 0, 1⟩,
             _traj_theta := ⟨0, 1, 0, 2⟩ } : Rotation_Const_Axis_Traj ℚ (Linear_Traj ℚ)) 5)
      - getInitialTime Linear_Traj.interface
        (changeInitialTime Linear_Traj.interface
          ({ _initial_quat := UnitQuaternion.identity, _axis := ⟨0, 0, 1⟩,
             _traj_theta := ⟨0, 1, 0, 2⟩ } : Rotation_Const_Axis_Traj ℚ (Linear_Traj ℚ)) 5)
      = getFinalTime Linear_Traj.interface
          ({ _initial_quat := UnitQuaternion.identity, _axis := ⟨0, 0, 1⟩,
             _traj_theta := ⟨0, 1, 0, 2⟩ } : Rotation_Const_Axis_Traj ℚ (Linear_Traj ℚ))
        - getInitialTime Linear_Traj.interface
          ({ _initial_quat := UnitQuaternion.identity, _axis := ⟨0, 0, 1⟩,
             _traj_theta := ⟨0, 1, 0, 2⟩ } : Rotation_Const_Axis_Traj ℚ (Linear_Traj ℚ)) :=
  (time_window_of_scalar_generator Linear_Traj.interface
    ({ _initial_quat := UnitQuaternion.identity, _axis := ⟨0, 0, 1⟩,
       _traj_theta := ⟨0, 1, 0, 2⟩ } : Rotation_Const_Axis_Traj ℚ (Linear_Traj ℚ)) 5).2.2.2.2.2
    (fun s t0 => ⟨rfl, by simp [Linear_Traj.interface]⟩)

end TimeWindow

/-! ## The Cartesian interface -/

section Twist

variable {R : Type} {γ : Type}

open Cartesian_Traj_Interface

/-- C12: for every concrete Cartesian generator and time, `getTwist(t)` has the
coordinates of `getLinearVelocity(t)` at the places 0, 1, 2 and the coordinates of
`getAngularVelocity(t)` at the places 3, 4, 5, whatever the local vector held before. -/
theorem getTwist_stacks_velocities (V : Cartesian_Traj_Virtual R γ)
    (obj : Cartesian_Traj_Interface R γ) (secs : R) (t : Vector6 R) :
    getTwist V obj secs t 0 = (V.getLinearVelocity obj secs).x ∧
    getTwist V obj secs t 1 = (V.getLinearVelocity obj secs).y ∧
    getTwist V obj secs t 2 = (V.getLinearVelocity obj secs).z ∧
    getTwist V obj secs t 3 = (V.getAngularVelocity obj secs).x ∧
    getTwist V obj secs t 4 = (V.getAngularVelocity obj secs).y ∧
    getTwist V obj secs t 5 = (V.getAngularVelocity obj secs).z := by
  exact ⟨rfl, rfl, rfl, rfl, rfl, rfl⟩

end Twist

section Cartesian

variable {R : Type} [LinearOrderedField R] {γ : Type}

open Cartesian_Traj_Interface

/-- The rotation matrix of a unit quaternion moves the coordinates of a vector as the
quaternion rotates the vector. -/
theorem UnitQuaternion.torot_apply {q : UnitQuaternion R} (hq : q.IsUnit) (v : Vector3 R) :
    (⟨q.torot 0 0 * v.x + q.torot 0 1 * v.y + q.torot 0 2 * v.z,
      q.torot 1 0 * v.x + q.torot 1 1 * v.y + q.torot 1 2 * v.z,
      q.torot 2 0 * v.x + q.torot 2 1 * v.y + q.torot 2 2 * v.z⟩ : Vector3 R)
      = UnitQuaternion.rotate q v := by
  have h : q.s * q.s + (q.v.x * q.v.x + q.v.y * q.v.y + q.v.z * q.v.z) = 1 := hq
  apply Vector3.ext
  · simp [UnitQuaternion.torot, UnitQuaternion.rotate, UnitQuaternion.mul, UnitQuaternion.inv,
      Vector3.dot, Vector3.add, Vector3.smul, Vector3.cross]
    linear_combination (-v.x) * h
  · simp [UnitQuaternion.torot, UnitQuaternion.rotate, UnitQuaternion.mul, UnitQuaternion.inv,
      Vector3.dot, Vector3.add, Vector3.smul, Vector3.cross]
    linear_combination (-v.y) * h
  · simp [UnitQuaternion.torot, UnitQuaternion.rotate, UnitQuaternion.mul, UnitQuaternion.inv,
      Vector3.dot, Vector3.add, Vector3.smul, Vector3.cross]
    linear_combination (-v.z) * h

/-- C14: on a generator that overrides at most the homogeneous-transform overload,
`changeFrame(R)` is `changeFrame(T)` for the transform `T = r2t(R)`, whose rotation block
is `R`, whose translation is zero and whose last row is `(0, 0, 0, 1)`; and
`changeFrame(Q)` is `changeFrame` of the rotation matrix `Q.torot()`, hence of the
transform of that rotation with zero translation; for a unit `Q` that matrix moves a
vector as `Q` rotates it. -/
theorem changeFrame_overloads_agree (V : Cartesian_Traj_Virtual R γ)
    (obj : Cartesian_Traj_Interface R γ) (A : Matrix (Fin 3) (Fin 3) R) (Q : UnitQuaternion R) :
    changeFrameR V obj A = changeFrameT V obj (r2t A) ∧
    changeFrameQ V obj Q = changeFrameR V obj (UnitQuaternion.torot Q) ∧
    changeFrameQ V obj Q = changeFrameT V obj (r2t (UnitQuaternion.torot Q)) ∧
    (∀ i j : Fin 3, r2t A i.castSucc j.castSucc = A i j) ∧
    (∀ i : Fin 3, r2t A i.castSucc 3 = 0) ∧
    (∀ j : Fin 3, r2t A 3 j.castSucc = 0) ∧
    r2t A 3 3 = 1 ∧
    (Q.IsUnit → ∀ v : Vector3 R,
      (⟨Q.torot 0 0 * v.x + Q.torot 0 1 * v.y + Q.torot 0 2 * v.z,
        Q.torot 1 0 * v.x + Q.torot 1 1 * v.y + Q.torot 1 2 * v.z,
        Q.torot 2 0 * v.x + Q.torot 2 1 * v.y + Q.torot 2 2 * v.z⟩ : Vector3 R)
        = UnitQuaternion.rotate Q v) := by
  refine ⟨rfl, rfl, rfl, fun i j => ?_, fun i => ?_, fun j => ?_, ?_, fun hQ v =>
    UnitQuaternion.torot_apply hQ v⟩
  · have hi : i.castSucc.val < 3 := i.isLt
    have hj : j.castSucc.val < 3 := j.isLt
    simp [r2t, hi, hj]
  · have h3 : ((3 : Fin 4) : ℕ) = 3 := rfl
    fin_cases i <;> simp [r2t, h3, Fin.ext_iff]
  · have h3 : ((3 : Fin 4) : ℕ) = 3 := rfl
    fin_cases j <;> simp [r2t, h3, Fin.ext_iff]
  · have h3 : ((3 : Fin 4) : ℕ) = 3 := rfl
    simp [r2t, h3]

/-- C15: the base implementation of the homogeneous-transform `changeFrame` ends the
process with the status given to `exit`, for every generator and input, and returns no
generator; on a generator that does not override it, the virtual call and the
rotation-matrix and quaternion overloads end the process in the same way. -/
theorem changeFrame_not_overridden_exits (V : Cartesian_Traj_Virtual R γ)
    (hV : V.changeFrame_override = none) (obj : Cartesian_Traj_Interface R γ)
    (T : Matrix (Fin 4) (Fin 4) R) (A : Matrix (Fin 3) (Fin 3) R) (Q : UnitQuaternion R) :
    changeFrame obj T = Outcome.exited (-1) ∧
    (∀ obj1, changeFrame obj T ≠ Outcome.returned obj1) ∧
    changeFrameT V obj T = Outcome.exited (-1) ∧
    changeFrameR V obj A = Outcome.exited (-1) ∧
    changeFrameQ V obj Q = Outcome.exited (-1) ∧
    (∀ obj1, changeFrameT V obj T ≠ Outcome.returned obj1 ∧
      changeFrameR V obj A ≠ Outcome.returned obj1 ∧
      changeFrameQ V obj Q ≠ Outcome.returned obj1) := by
  have hT : ∀ T1, changeFrameT V obj T1 = Outcome.exited (-1) := by
    intro T1
    simp only [changeFrameT, hV, changeFrame]
  refine ⟨rfl, fun obj1 h => ?_, hT T, hT _, hT _, fun obj1 => ⟨?_, ?_, ?_⟩⟩
  · simp [changeFrame] at h
  · rw [hT]; simp
  · rw [changeFrameR, hT]; simp
  · rw [changeFrameQ, changeFrameR, hT]; simp

/-- Instance of C15 over the rationals: the example generator without override, asked to
change frame by the identity quaternion. -/
theorem changeFrame_not_overridden_exits_witness :
    changeFrameQ Screw_Traj.virtual
      (init (⟨Vector3.Zeros, UnitQuaternion.identity, ⟨1, 2, 3⟩, ⟨4, 5, 6⟩⟩ : Screw_Traj ℚ) 1 : Cartesian_Traj_Interface ℚ (Screw_Traj ℚ))
      UnitQuaternion.identity = Outcome.exited (-1) :=
  (changeFrame_not_overridden_exits (Screw_Traj.virtual : Cartesian_Traj_Virtual ℚ (Screw_Traj ℚ))
    rfl (init (⟨Vector3.Zeros, UnitQuaternion.identity, ⟨1, 2, 3⟩, ⟨4, 5, 6⟩⟩ : Screw_Traj ℚ) 1 : Cartesian_Traj_Interface ℚ (Screw_Traj ℚ))
    1 1 UnitQuaternion.identity).2.2.2.2.1

/-- Instance of C14 over the rationals: on the example generator that overrides the
homogeneous-transform overload, the frame change by the half turn about `z` gives, through
each of the three overloads, the generator with both velocities turned. -/
theorem changeFrame_overloads_agree_witness :
    changeFrameQ Screw_Traj.virtualFrame
        (init (⟨Vector3.Zeros, UnitQuaternion.identity, ⟨1, 2, 3⟩, ⟨4, 5, 6⟩⟩ : Screw_Traj ℚ) 1 :
          Cartesian_Traj_Interface ℚ (Screw_Traj ℚ)) ⟨0, ⟨0, 0, 1⟩⟩
      = changeFrameT Screw_Traj.virtualFrame
        (init (⟨Vector3.Zeros, UnitQuaternion.identity, ⟨1, 2, 3⟩, ⟨4, 5, 6⟩⟩ : Screw_Traj ℚ) 1 :
          Cartesian_Traj_Interface ℚ (Screw_Traj ℚ))
        (r2t (UnitQuaternion.torot ⟨0, ⟨0, 0, 1⟩⟩)) ∧
    changeFrameQ Screw_Traj.virtualFrame
        (init (⟨Vector3.Zeros, UnitQuaternion.identity, ⟨1, 2, 3⟩, ⟨4, 5, 6⟩⟩ : Screw_Traj ℚ) 1 :
          Cartesian_Traj_Interface ℚ (Screw_Traj ℚ)) ⟨0, ⟨0, 0, 1⟩⟩
      = Outcome.returned
        (init (⟨Vector3.Zeros, UnitQuaternion.identity, ⟨-1, -2, 3⟩, ⟨-4, -5, 6⟩⟩ : Screw_Traj ℚ)
          1) := by
  refine ⟨(changeFrame_overloads_agree _ _ 1 _).2.2.1, ?_⟩
  have h2 : ((2 : Fin 4) : ℕ) = 2 := rfl
  simp [changeFrameQ, changeFrameR, changeFrameT, Screw_Traj.virtualFrame, init, r2t,
    UnitQuaternion.torot, h2, Matrix.vecHead, Matrix.vecTail]
  norm_num

end Cartesian

/-! ## Unit norm of the orientation -/

section UnitNorm

variable {R : Type} [LinearOrderedField R] {σ : Type}

open Rotation_Const_Axis_Traj

theorem Vector3.dot_self_of_norm_eq_one {M : MathToolbox R} (hM : M.SqrtExact) {v : Vector3 R}
    (hv : Vector3.norm M v = 1) : Vector3.dot v v = 1 := by
  have h := hM.2 _ (Vector3.dot_self_nonneg v)
  unfold Vector3.norm at hv
  rw [hv, one_mul] at h
  exact h.symm

theorem UnitQuaternion.isUnit_angvec {M : MathToolbox R} (hT : M.TrigExact) (theta : R)
    {v : Vector3 R} (hv : Vector3.dot v v = 1) : (UnitQuaternion.angvec M theta v).IsUnit := by
  have hp := hT.2.2 (theta / 2)
  have hv1 : v.x * v.x + v.y * v.y + v.z * v.z = 1 := hv
  simp only [UnitQuaternion.IsUnit, UnitQuaternion.normSq, UnitQuaternion.angvec, Vector3.dot,
    Vector3.smul]
  linear_combination hp + (M.sin (theta / 2) * M.sin (theta / 2)) * hv1

theorem UnitQuaternion.isUnit_identity : (UnitQuaternion.identity : UnitQuaternion R).IsUnit := by
  simp [UnitQuaternion.IsUnit, UnitQuaternion.normSq, UnitQuaternion.identity, Vector3.dot,
    Vector3.Zeros]

theorem UnitQuaternion.isUnit_mul {p q : UnitQuaternion R} (hp : p.IsUnit) (hq : q.IsUnit) :
    (UnitQuaternion.mul p q).IsUnit := by
  unfold UnitQuaternion.IsUnit at *
  rw [UnitQuaternion.normSq_mul, hp, hq, one_mul]

/-- C16: when the initial quaternion has unit norm and the stored axis is unit-norm or
zero, `getDeltaQuat(t)` and `getQuaternion(t)` have norm exactly one, for every scalar
generator and time. -/
theorem orientation_unit_norm (M : MathToolbox R) (hM : M.SqrtExact) (hT : M.TrigExact)
    (I : Scalar_Traj_Interface R σ) (S : Rotation_Const_Axis_Traj R σ)
    (hq : S._initial_quat.IsUnit) (ha : Vector3.UnitOrZero M S._axis) (t : R) :
    (getDeltaQuat M I S t).IsUnit ∧ (getQuaternion M I S t).IsUnit ∧
    UnitQuaternion.norm M (getDeltaQuat M I S t) = 1 ∧
    UnitQuaternion.norm M (getQuaternion M I S t) = 1 := by
  have hd : (getDeltaQuat M I S t).IsUnit := by
    rcases ha with h | h
    · rw [getDeltaQuat_of_axis_ne M I S (Vector3.ne_Zeros_of_norm_eq_one hM h) t]
      exact UnitQuaternion.isUnit_angvec hT _ (Vector3.dot_self_of_norm_eq_one hM h)
    · rw [(sample_of_axis_Zeros M I S h t).1]
      exact UnitQuaternion.isUnit_identity
  have hQ : (getQuaternion M I S t).IsUnit := UnitQuaternion.isUnit_mul hd hq
  refine ⟨hd, hQ, ?_, ?_⟩
  · unfold UnitQuaternion.norm
    rw [hd, hM.sqrt_one]
  · unfold UnitQuaternion.norm
    rw [hQ, hM.sqrt_one]

/-- Instance of C16 over the reals: axis `(0, 0, 1)`, initial quaternion `(0, 1, 0, 0)`. -/
theorem orientation_unit_norm_witness :
    ∃ M : MathToolbox ℝ, M.sqrt = Real.sqrt ∧ M.cos = Real.cos ∧ M.sin = Real.sin ∧
      ∀ t, UnitQuaternion.norm M (getQuaternion M Linear_Traj.interface
        { _initial_quat := ⟨0, ⟨1, 0, 0⟩⟩, _axis := ⟨0, 0, 1⟩, _traj_theta := ⟨0, 1, 0, 2⟩ } t)
          = 1 := by
  refine ⟨MathToolbox.mk Real.sqrt Real.cos Real.sin (fun q => ⟨0, q.v⟩)
    (fun _ => UnitQuaternion.identity), rfl, rfl, rfl, fun t => ?_⟩
  exact (orientation_unit_norm _ (MathToolbox.sqrtExact_real _ _ _ _)
    (MathToolbox.trigExact_real _ _ _) Linear_Traj.interface _
    (by simp [UnitQuaternion.IsUnit, UnitQuaternion.normSq, Vector3.dot])
    (Or.inl (by simp [Vector3.norm, Vector3.dot])) t).2.2.2

end UnitNorm

/-! ## What each mutator changes -/

section FrameEffects

variable {R : Type} [LinearOrderedField R] {σ : Type}

open Rotation_Const_Axis_Traj

/-- C18: `getAxis()` and `getInitialQuat()` return the stored members; `setInitialQuat(q)`
makes `getInitialQuat()` return `q` and keeps the axis and the scalar generator; `setAxis`
keeps the initial quaternion and the scalar generator; `setScalarTraj(s)` keeps the axis
and the initial quaternion and owns the clone of `s`, so that (the clone answering as `s`)
the time bounds, the angle, the angular velocity and acceleration are those of `s`;
`changeInitialTime` keeps the axis and the initial quaternion; `changeFrame`, by quaternion
or by matrix, keeps the scalar generator and with it the time bounds. -/
theorem mutators_change_only_their_part (M : MathToolbox R) (I : Scalar_Traj_Interface R σ)
    (S : Rotation_Const_Axis_Traj R σ) (q Q : UnitQuaternion R) (v : Vector3 R) (s : σ) (t0 : R)
    (A : Matrix (Fin 3) (Fin 3) R) :
    (getAxis S = S._axis ∧ getInitialQuat S = S._initial_quat) ∧
    (getInitialQuat (setInitialQuat S q) = q ∧ (setInitialQuat S q)._axis = S._axis ∧
      (setInitialQuat S q)._traj_theta = S._traj_theta) ∧
    ((setAxis M S v)._initial_quat = S._initial_quat ∧
      (setAxis M S v)._traj_theta = S._traj_theta) ∧
    ((setScalarTraj I S s)._axis = S._axis ∧
      (setScalarTraj I S s)._initial_quat = S._initial_quat ∧
      (setScalarTraj I S s)._traj_theta = I.clone s) ∧
    (I.CloneExact →
      getInitialTime I (setScalarTraj I S s) = I.getInitialTime s ∧
      getFinalTime I (setScalarTraj I S s) = I.getFinalTime s ∧
      ∀ t, I.getPosition (setScalarTraj I S s)._traj_theta t = I.getPosition s t ∧
        getVelocity I (setScalarTraj I S s) t = Vector3.smul (I.getVelocity s t) S._axis ∧
        getAcceleration I (setScalarTraj I S s) t
          = Vector3.smul (I.getAcceleration s t) S._axis) ∧
    ((changeInitialTime I S t0)._axis = S._axis ∧
      (changeInitialTime I S t0)._initial_quat = S._initial_quat) ∧
    ((changeFrame S Q)._traj_theta = S._traj_theta ∧
      getInitialTime I (changeFrame S Q) = getInitialTime I S ∧
      getFinalTime I (changeFrame S Q) = getFinalTime I S ∧
      (changeFrameR M S A)._traj_theta = S._traj_theta ∧
      getInitialTime I (changeFrameR M S A) = getInitialTime I S ∧
      getFinalTime I (changeFrameR M S A) = getFinalTime I S) := by
  refine ⟨⟨rfl, rfl⟩, ⟨rfl, rfl, rfl⟩, ⟨?_, ?_⟩, ⟨rfl, rfl, rfl⟩, fun hI => ?_, ⟨rfl, rfl⟩,
    ⟨rfl, rfl, rfl, rfl, rfl, rfl⟩⟩
  · unfold setAxis
    split <;> rfl
  · unfold setAxis
    split <;> rfl
  · obtain ⟨hp, hv, ha, hi, hf⟩ := hI s
    refine ⟨hi, hf, fun t => ⟨hp t, ?_, ?_⟩⟩
    · simp only [getVelocity, setScalarTraj, hv]
    · simp only [getAcceleration, setScalarTraj, ha]

/-- Instance of C18 over the rationals: a scalar generator over `[3, 7]` is installed. -/
theorem mutators_change_only_their_part_witness :
    getInitialTime Linear_Traj.interface
      (setScalarTraj Linear_Traj.interface
        ({ _initial_quat := UnitQuaternion.identity, _axis := ⟨0, 0, 1⟩,
           _traj_theta := ⟨0, 1, 0, 2⟩ } : Rotation_Const_Axis_Traj ℚ (Linear_Traj ℚ))
        ⟨3, 4, 0, 5⟩) = 3 ∧
    getFinalTime Linear_Traj.interface
      (setScalarTraj Linear_Traj.interface
        ({ _initial_quat := UnitQuaternion.identity, _axis := ⟨0, 0, 1⟩,
           _traj_theta := ⟨0, 1, 0, 2⟩ } : Rotation_Const_Axis_Traj ℚ (Linear_Traj ℚ))
        ⟨3, 4, 0, 5⟩) = 7 := by
  have h := (mutators_change_only_their_part
    (⟨fun x => x, fun _ => 1, fun _ => 0, fun q => ⟨0, q.v⟩, fun _ => UnitQuaternion.identity⟩ :
      MathToolbox ℚ) Linear_Traj.interface
    ({ _initial_quat := UnitQuaternion.identity, _axis := ⟨0, 0, 1⟩,
       _traj_theta := ⟨0, 1, 0, 2⟩ } : Rotation_Const_Axis_Traj ℚ (Linear_Traj ℚ))
    UnitQuaternion.identity UnitQuaternion.identity Vector3.Zeros ⟨3, 4, 0, 5⟩ 0 1).2.2.2.2.1
    (fun _ => ⟨fun _ => rfl, fun _ => rfl, fun _ => rfl, rfl, rfl⟩)
  refine ⟨h.1, ?_⟩
  rw [h.2.1]
  norm_num [Linear_Traj.interface]

end FrameEffects

/-! ## Composition of frame changes -/

section FrameComposition

variable {R : Type} [LinearOrderedField R] {σ : Type}

open Rotation_Const_Axis_Traj

theorem UnitQuaternion.rotate_mul (p q : UnitQuaternion R) (v : Vector3 R) :
    UnitQuaternion.rotate (UnitQuaternion.mul p q) v
      = UnitQuaternion.rotate p (UnitQuaternion.rotate q v) := by
  apply Vector3.ext <;>
    simp only [UnitQuaternion.rotate, UnitQuaternion.mul, UnitQuaternion.inv, Vector3.dot,
      Vector3.add, Vector3.smul, Vector3.cross] <;>
    ring

theorem UnitQuaternion.rotate_identity (v : Vector3 R) :
    UnitQuaternion.rotate UnitQuaternion.identity v = v := by
  apply Vector3.ext <;>
    simp [UnitQuaternion.rotate, UnitQuaternion.mul, UnitQuaternion.inv,
      UnitQuaternion.identity, Vector3.dot, Vector3.add, Vector3.smul, Vector3.cross,
      Vector3.Zeros]

/-- C20: `changeFrame(Q1)` followed by `changeFrame(Q2)` leaves the generator with the
initial quaternion and axis (and scalar generator) that the single call
`changeFrame(Q2 * Q1)` gives, for all quaternions and so for all unit ones, and
`changeFrame` by the identity quaternion leaves the state as it is. -/
theorem changeFrame_composes (S : Rotation_Const_Axis_Traj R σ) (Q1 Q2 : UnitQuaternion R) :
    (changeFrame (changeFrame S Q1) Q2)._initial_quat
      = (changeFrame S (UnitQuaternion.mul Q2 Q1))._initial_quat ∧
    (changeFrame (changeFrame S Q1) Q2)._axis
      = (changeFrame S (UnitQuaternion.mul Q2 Q1))._axis ∧
    changeFrame (changeFrame S Q1) Q2 = changeFrame S (UnitQuaternion.mul Q2 Q1) ∧
    changeFrame S UnitQuaternion.identity = S := by
  have h1 : (changeFrame (changeFrame S Q1) Q2)._initial_quat
      = (changeFrame S (UnitQuaternion.mul Q2 Q1))._initial_quat := by
    simp only [changeFrame]
    rw [UnitQuaternion.mul_assoc]
  have h2 : (changeFrame (changeFrame S Q1) Q2)._axis
      = (changeFrame S (UnitQuaternion.mul Q2 Q1))._axis := by
    simp only [changeFrame]
    rw [UnitQuaternion.rotate_mul]
  refine ⟨h1, h2, ?_, ?_⟩
  · simp only [changeFrame] at h1 h2 ⊢
    rw [h1, h2]
  · cases S
    simp only [changeFrame, UnitQuaternion.identity_mul, UnitQuaternion.rotate_identity]

end FrameComposition

/-! ## The constructor from the initial and final quaternions -/

section FinalQuat
variable {R : Type} [LinearOrderedField R] {σ : Type}
open Rotation_Const_Axis_Traj

theorem Vector3.ne_Zeros_of_not_small {M : MathToolbox R} (hM : M.SqrtExact) {v : Vector3 R}
    (hv : ¬ Vector3.norm M v < 10 * epsilon) : v ≠ Vector3.Zeros := by
  intro h
  apply hv
  rw [h, Vector3.norm_Zeros hM]
  exact epsilon_pos

theorem Rotation_Const_Axis_Traj.fromQuats_traj_theta (M : MathToolbox R)
    (I : Scalar_Traj_Interface R σ) (qi qf : UnitQuaternion R) (s : σ) :
    (fromQuats M I qi qf s).1._traj_theta = I.clone s := by
  unfold fromQuats
  simp only
  split <;> rfl

/-- C19: for unit quaternions `initial_quat` and `final_quat`, the initial/final-quaternion
constructor returns the angle of the axis-angle form of `final_quat * inv(initial_quat)`
and keeps `initial_quat`; when the extracted axis is not below the tolerance it is the
stored axis, `getQuaternion(t)` is `final_quat` at every time where the scalar generator's
position is the returned angle, and `initial_quat` at every time where it is `0`; when the
extracted axis is below the tolerance the stored axis is zero and `getQuaternion(t)` is
`initial_quat` at every time. -/
theorem fromQuats_reaches_final (M : MathToolbox R) (hM : M.SqrtExact) (hT : M.TrigExact)
    (hA : M.AngVecInverse) (I : Scalar_Traj_Interface R σ) (qi qf : UnitQuaternion R)
    (hi : qi.IsUnit) (hf : qf.IsUnit) (s : σ) :
    (fromQuats M I qi qf s).2
      = (M.toangvec (UnitQuaternion.mul qf (UnitQuaternion.inv qi))).ang ∧
    (fromQuats M I qi qf s).1._initial_quat = qi ∧
    (¬ Vector3.norm M (M.toangvec (UnitQuaternion.mul qf (UnitQuaternion.inv qi))).vec
        < 10 * epsilon →
      (fromQuats M I qi qf s).1._axis
        = (M.toangvec (UnitQuaternion.mul qf (UnitQuaternion.inv qi))).vec ∧
      (∀ t, I.getPosition (fromQuats M I qi qf s).1._traj_theta t = (fromQuats M I qi qf s).2 →
        getQuaternion M I (fromQuats M I qi qf s).1 t = qf) ∧
      (∀ t, I.getPosition (fromQuats M I qi qf s).1._traj_theta t = 0 →
        getQuaternion M I (fromQuats M I qi qf s).1 t = qi)) ∧
    (Vector3.norm M (M.toangvec (UnitQuaternion.mul qf (UnitQuaternion.inv qi))).vec
        < 10 * epsilon →
      (fromQuats M I qi qf s).1._axis = Vector3.Zeros ∧
      ∀ t, getQuaternion M I (fromQuats M I qi qf s).1 t = qi) := by
  have hD : (UnitQuaternion.mul qf (UnitQuaternion.inv qi)).IsUnit :=
    UnitQuaternion.isUnit_mul hf (UnitQuaternion.isUnit_inv hi)
  have hang : (fromQuats M I qi qf s).2
      = (M.toangvec (UnitQuaternion.mul qf (UnitQuaternion.inv qi))).ang := by
    unfold fromQuats
    simp only
    split <;> rfl
  have hq0 : (fromQuats M I qi qf s).1._initial_quat = qi := by
    unfold fromQuats
    simp only
    split <;> rfl
  refine ⟨hang, hq0, fun hbig => ?_, fun hsmall => ?_⟩
  · have hax : (fromQuats M I qi qf s).1._axis
        = (M.toangvec (UnitQuaternion.mul qf (UnitQuaternion.inv qi))).vec := by
      simp only [fromQuats, if_neg hbig]
    have hne := Vector3.ne_Zeros_of_not_small hM hbig
    have hne' : (fromQuats M I qi qf s).1._axis ≠ Vector3.Zeros := by
      rw [hax]
      exact hne
    refine ⟨hax, fun t ht => ?_, fun t ht => ?_⟩
    · unfold getQuaternion
      rw [getDeltaQuat_of_axis_ne M I _ hne' t, ht, hang, hax, hA _ hD hne, hq0,
        UnitQuaternion.mul_assoc, UnitQuaternion.inv_mul_cancel hi, UnitQuaternion.mul_identity]
    · unfold getQuaternion
      rw [getDeltaQuat_of_axis_ne M I _ hne' t, ht, hq0]
      have h0 : UnitQuaternion.angvec M 0 (fromQuats M I qi qf s).1._axis
          = UnitQuaternion.identity := by
        simp [UnitQuaternion.angvec, UnitQuaternion.identity, Vector3.smul, Vector3.Zeros,
          hT.1, hT.2.1]
      rw [h0, UnitQuaternion.identity_mul]
  · have hax : (fromQuats M I qi qf s).1._axis = Vector3.Zeros := by
      simp only [fromQuats, if_pos hsmall]
    refine ⟨hax, fun t => ?_⟩
    rw [(sample_of_axis_Zeros M I _ hax t).2.1, hq0]

/-- The axis-angle extraction that returns the angle `2 * arccos s` about the normalised
vector part, and no rotation when the vector part is below the tolerance, satisfies the
two contracts of `toangvec`. -/
theorem MathToolbox.angVec_real (r : Matrix (Fin 3) (Fin 3) ℝ → UnitQuaternion ℝ) :
    (MathToolbox.mk Real.sqrt Real.cos Real.sin
      (fun q => if Real.sqrt (Vector3.dot q.v q.v) < 10 * epsilon then ⟨0, Vector3.Zeros⟩
        else ⟨2 * Real.arccos q.s, Vector3.smul (1 / Real.sqrt (Vector3.dot q.v q.v)) q.v⟩)
      r).AngVecExact ∧
    (MathToolbox.mk Real.sqrt Real.cos Real.sin
      (fun q => if Real.sqrt (Vector3.dot q.v q.v) < 10 * epsilon then ⟨0, Vector3.Zeros⟩
        else ⟨2 * Real.arccos q.s, Vector3.smul (1 / Real.sqrt (Vector3.dot q.v q.v)) q.v⟩)
      r).AngVecInverse := by
  have hM := MathToolbox.sqrtExact_real Real.cos Real.sin
    (fun q => if Real.sqrt (Vector3.dot q.v q.v) < 10 * epsilon then ⟨0, Vector3.Zeros⟩
      else ⟨2 * Real.arccos q.s, Vector3.smul (1 / Real.sqrt (Vector3.dot q.v q.v)) q.v⟩) r
  constructor
  · intro q _
    show Vector3.UnitOrZero _
      (if Real.sqrt (Vector3.dot q.v q.v) < 10 * epsilon then (⟨0, Vector3.Zeros⟩ : AngVec ℝ)
        else ⟨2 * Real.arccos q.s,
          Vector3.smul (1 / Real.sqrt (Vector3.dot q.v q.v)) q.v⟩).vec
    split
    · exact Or.inr rfl
    · next hlt => exact Or.inl (Vector3.norm_unit hM q.v hlt)
  · intro q hq hne
    have hq1 : q.s * q.s + Vector3.dot q.v q.v = 1 := hq
    have hd := Vector3.dot_self_nonneg q.v
    by_cases hlt : Real.sqrt (Vector3.dot q.v q.v) < 10 * epsilon
    · exfalso
      apply hne
      show (if Real.sqrt (Vector3.dot q.v q.v) < 10 * epsilon then (⟨0, Vector3.Zeros⟩ : AngVec ℝ)
        else ⟨2 * Real.arccos q.s,
          Vector3.smul (1 / Real.sqrt (Vector3.dot q.v q.v)) q.v⟩).vec = Vector3.Zeros
      rw [if_pos hlt]
    · have hn : 0 < Real.sqrt (Vector3.dot q.v q.v) :=
        lt_of_lt_of_le epsilon_pos (not_lt.mp hlt)
      have hs1 : -1 ≤ q.s := by nlinarith
      have hs2 : q.s ≤ 1 := by nlinarith
      have hsin : Real.sin (Real.arccos q.s) = Real.sqrt (Vector3.dot q.v q.v) := by
        rw [Real.sin_arccos]
        congr 1
        linear_combination -hq1
      show UnitQuaternion.angvec _
        (if Real.sqrt (Vector3.dot q.v q.v) < 10 * epsilon then (⟨0, Vector3.Zeros⟩ : AngVec ℝ)
          else ⟨2 * Real.arccos q.s,
            Vector3.smul (1 / Real.sqrt (Vector3.dot q.v q.v)) q.v⟩).ang
        (if Real.sqrt (Vector3.dot q.v q.v) < 10 * epsilon then (⟨0, Vector3.Zeros⟩ : AngVec ℝ)
          else ⟨2 * Real.arccos q.s,
            Vector3.smul (1 / Real.sqrt (Vector3.dot q.v q.v)) q.v⟩).vec = q
      rw [if_neg hlt]
      have h2 : 2 * Real.arccos q.s / 2 = Real.arccos q.s := by ring
      apply UnitQuaternion.ext
      · simp only [UnitQuaternion.angvec, h2]
        exact Real.cos_arccos hs1 hs2
      · apply Vector3.ext <;>
          simp only [UnitQuaternion.angvec, Vector3.smul, h2, hsin] <;>
          field_simp

/-- Instance of C19 over the reals: from the identity to the half turn about `z`; the
returned angle is `π`, and the generator driven by the linear sweep from `0` to `π` over
`[0, 1]` is at the final quaternion at time `1`. -/
theorem fromQuats_reaches_final_witness :
    ∃ M : MathToolbox ℝ, M.sqrt = Real.sqrt ∧ M.cos = Real.cos ∧ M.sin = Real.sin ∧
      M.AngVecInverse ∧
      (fromQuats M Linear_Traj.interface UnitQuaternion.identity ⟨0, ⟨0, 0, 1⟩⟩
        ⟨0, 1, 0, Real.pi⟩).2 = Real.pi ∧
      getQuaternion M Linear_Traj.interface
        (fromQuats M Linear_Traj.interface UnitQuaternion.identity ⟨0, ⟨0, 0, 1⟩⟩
          ⟨0, 1, 0, Real.pi⟩).1 1 = ⟨0, ⟨0, 0, 1⟩⟩ := by
  have hε : ¬ ((1 : ℝ) < 10 * epsilon) := by
    unfold epsilon
    norm_num
  have hM := MathToolbox.sqrtExact_real Real.cos Real.sin
    (fun q => if Real.sqrt (Vector3.dot q.v q.v) < 10 * epsilon then ⟨0, Vector3.Zeros⟩
      else ⟨2 * Real.arccos q.s, Vector3.smul (1 / Real.sqrt (Vector3.dot q.v q.v)) q.v⟩)
    (fun _ => UnitQuaternion.identity)
  have hT := MathToolbox.trigExact_real Real.sqrt
    (fun q => if Real.sqrt (Vector3.dot q.v q.v) < 10 * epsilon then ⟨0, Vector3.Zeros⟩
      else ⟨2 * Real.arccos q.s, Vector3.smul (1 / Real.sqrt (Vector3.dot q.v q.v)) q.v⟩)
    (fun _ => UnitQuaternion.identity)
  have hA := (MathToolbox.angVec_real (fun _ => UnitQuaternion.identity)).2
  have hi : (UnitQuaternion.identity : UnitQuaternion ℝ).IsUnit := UnitQuaternion.isUnit_identity
  have hf : (⟨0, ⟨0, 0, 1⟩⟩ : UnitQuaternion ℝ).IsUnit := by
    simp [UnitQuaternion.IsUnit, UnitQuaternion.normSq, Vector3.dot]
  have h := fromQuats_reaches_final _ hM hT hA Linear_Traj.interface UnitQuaternion.identity
    ⟨0, ⟨0, 0, 1⟩⟩ hi hf ⟨0, 1, 0, Real.pi⟩
  have hang : (fromQuats
      (MathToolbox.mk Real.sqrt Real.cos Real.sin
        (fun q => if Real.sqrt (Vector3.dot q.v q.v) < 10 * epsilon then ⟨0, Vector3.Zeros⟩
          else ⟨2 * Real.arccos q.s, Vector3.smul (1 / Real.sqrt (Vector3.dot q.v q.v)) q.v⟩)
        (fun _ => UnitQuaternion.identity))
      Linear_Traj.interface UnitQuaternion.identity ⟨0, ⟨0, 0, 1⟩⟩ ⟨0, 1, 0, Real.pi⟩).2
      = Real.pi := by
    rw [h.1]
    simp [UnitQuaternion.mul, UnitQuaternion.inv, UnitQuaternion.identity, Vector3.dot,
      Vector3.add, Vector3.smul, Vector3.cross, Vector3.Zeros, hε]
    ring
  refine ⟨_, rfl, rfl, rfl, hA, hang, ?_⟩
  refine (h.2.2.1 ?_).2.1 1 ?_
  · simp [Vector3.norm, UnitQuaternion.mul, UnitQuaternion.inv, UnitQuaternion.identity,
      Vector3.dot, Vector3.add, Vector3.smul, Vector3.cross, Vector3.Zeros, hε]
  · rw [hang, fromQuats_traj_theta]
    simp [Linear_Traj.interface]

end FinalQuat

/-! ## Angular velocity as the derivative of the orientation -/

section Kinematics
variable {σ : Type}
open Rotation_Const_Axis_Traj

theorem hasDerivAt_of_eq {f g : ℝ → ℝ} {f' g' t : ℝ} (h : HasDerivAt g g' t)
    (hf : ∀ τ, f τ = g τ) (hd : f' = g') : HasDerivAt f f' t := by
  have hfg : f = g := funext hf
  rw [hfg, hd]
  exact h

/-- C17: over the reals, for a generator whose axis is unit-norm or zero and a time `t`
at which the scalar angle law `scalar.positionAt` has the derivative `scalar.velocityAt(t)`,
each component of `getQuaternion` has at `t` the derivative given by one half of the pure
quaternion `(0, getVelocity(t))` multiplied on the left of `getQuaternion(t)`. -/
theorem getVelocity_is_angular_velocity (M : MathToolbox ℝ) (hsq : M.sqrt = Real.sqrt)
    (hc : M.cos = Real.cos) (hsn : M.sin = Real.sin) (I : Scalar_Traj_Interface ℝ σ)
    (S : Rotation_Const_Axis_Traj ℝ σ) (ha : Vector3.UnitOrZero M S._axis) (t : ℝ)
    (hθ : HasDerivAt (fun τ => I.getPosition S._traj_theta τ) (I.getVelocity S._traj_theta t) t) :
    HasDerivAt (fun τ => (getQuaternion M I S τ).s)
      (UnitQuaternion.scale (1 / 2)
        (UnitQuaternion.mul ⟨0, getVelocity I S t⟩ (getQuaternion M I S t))).s t ∧
    HasDerivAt (fun τ => (getQuaternion M I S τ).v.x)
      (UnitQuaternion.scale (1 / 2)
        (UnitQuaternion.mul ⟨0, getVelocity I S t⟩ (getQuaternion M I S t))).v.x t ∧
    HasDerivAt (fun τ => (getQuaternion M I S τ).v.y)
      (UnitQuaternion.scale (1 / 2)
        (UnitQuaternion.mul ⟨0, getVelocity I S t⟩ (getQuaternion M I S t))).v.y t ∧
    HasDerivAt (fun τ => (getQuaternion M I S τ).v.z)
      (UnitQuaternion.scale (1 / 2)
        (UnitQuaternion.mul ⟨0, getVelocity I S t⟩ (getQuaternion M I S t))).v.z t := by
  have hM : M.SqrtExact := by
    refine ⟨fun x => ?_, fun x hx => ?_⟩
    · rw [hsq]; exact Real.sqrt_nonneg x
    · rw [hsq]; exact Real.mul_self_sqrt hx
  rcases ha with h1 | h0
  · have hne := Vector3.ne_Zeros_of_norm_eq_one hM h1
    have hdot : S._axis.x * S._axis.x + S._axis.y * S._axis.y + S._axis.z * S._axis.z = 1 :=
      Vector3.dot_self_of_norm_eq_one hM h1
    have hfun : ∀ τ, getQuaternion M I S τ
        = UnitQuaternion.mul
            ⟨Real.cos (I.getPosition S._traj_theta τ / 2),
              Vector3.smul (Real.sin (I.getPosition S._traj_theta τ / 2)) S._axis⟩
            S._initial_quat := by
      intro τ
      unfold getQuaternion
      rw [getDeltaQuat_of_axis_ne M I S hne τ]
      simp only [UnitQuaternion.angvec, hc, hsn]
    have hcd := (hθ.div_const 2).cos
    have hsd := (hθ.div_const 2).sin
    have key : ∀ A B : ℝ, HasDerivAt
        (fun τ => A * Real.cos (I.getPosition S._traj_theta τ / 2)
          + B * Real.sin (I.getPosition S._traj_theta τ / 2))
        (A * (-Real.sin (I.getPosition S._traj_theta t / 2) * (I.getVelocity S._traj_theta t / 2))
          + B * (Real.cos (I.getPosition S._traj_theta t / 2)
            * (I.getVelocity S._traj_theta t / 2))) t :=
      fun A B => (hcd.const_mul A).add (hsd.const_mul B)
    refine ⟨?_, ?_, ?_, ?_⟩
    · refine hasDerivAt_of_eq (key S._initial_quat.s (-(Vector3.dot S._axis S._initial_quat.v)))
        (fun τ => ?_) ?_
      · rw [hfun τ]
        simp only [UnitQuaternion.mul, Vector3.dot, Vector3.smul]
        ring
      · rw [hfun t]
        simp only [UnitQuaternion.scale, UnitQuaternion.mul, getVelocity, Vector3.dot,
          Vector3.add, Vector3.smul, Vector3.cross]
        linear_combination (-(I.getVelocity S._traj_theta t / 2) * S._initial_quat.s
          * Real.sin (I.getPosition S._traj_theta t / 2)) * hdot
    · refine hasDerivAt_of_eq (key S._initial_quat.v.x
        (S._initial_quat.s * S._axis.x
          + (S._axis.y * S._initial_quat.v.z - S._axis.z * S._initial_quat.v.y)))
        (fun τ => ?_) ?_
      · rw [hfun τ]
        simp only [UnitQuaternion.mul, Vector3.add, Vector3.smul, Vector3.cross]
        ring
      · rw [hfun t]
        simp only [UnitQuaternion.scale, UnitQuaternion.mul, getVelocity, Vector3.dot,
          Vector3.add, Vector3.smul, Vector3.cross]
        linear_combination (-(I.getVelocity S._traj_theta t / 2) * S._initial_quat.v.x
          * Real.sin (I.getPosition S._traj_theta t / 2)) * hdot
    · refine hasDerivAt_of_eq (key S._initial_quat.v.y
        (S._initial_quat.s * S._axis.y
          + (S._axis.z * S._initial_quat.v.x - S._axis.x * S._initial_quat.v.z)))
        (fun τ => ?_) ?_
      · rw [hfun τ]
        simp only [UnitQuaternion.mul, Vector3.add, Vector3.smul, Vector3.cross]
        ring
      · rw [hfun t]
        simp only [UnitQuaternion.scale, UnitQuaternion.mul, getVelocity, Vector3.dot,
          Vector3.add, Vector3.smul, Vector3.cross]
        linear_combination (-(I.getVelocity S._traj_theta t / 2) * S._initial_quat.v.y
          * Real.sin (I.getPosition S._traj_theta t / 2)) * hdot
    · refine hasDerivAt_of_eq (key S._initial_quat.v.z
        (S._initial_quat.s * S._axis.z
          + (S._axis.x * S._initial_quat.v.y - S._axis.y * S._initial_quat.v.x)))
        (fun τ => ?_) ?_
      · rw [hfun τ]
        simp only [UnitQuaternion.mul, Vector3.add, Vector3.smul, Vector3.cross]
        ring
      · rw [hfun t]
        simp only [UnitQuaternion.scale, UnitQuaternion.mul, getVelocity, Vector3.dot,
          Vector3.add, Vector3.smul, Vector3.cross]
        linear_combination (-(I.getVelocity S._traj_theta t / 2) * S._initial_quat.v.z
          * Real.sin (I.getPosition S._traj_theta t / 2)) * hdot
  · have hfun : ∀ τ, getQuaternion M I S τ = S._initial_quat :=
      fun τ => (sample_of_axis_Zeros M I S h0 τ).2.1
    have hv : getVelocity I S t = Vector3.Zeros := (sample_of_axis_Zeros M I S h0 t).2.2.1
    simp only [hfun, hv]
    refine ⟨?_, ?_, ?_, ?_⟩ <;>
      refine hasDerivAt_of_eq (hasDerivAt_const t _) (fun _ => rfl) ?_ <;>
      simp [UnitQuaternion.scale, UnitQuaternion.mul, Vector3.dot, Vector3.add, Vector3.smul,
        Vector3.cross, Vector3.Zeros]

/-- Instance of C17: axis `(0, 0, 1)` and the angle law `θ(τ) = 2 τ`, at every time. -/
theorem getVelocity_is_angular_velocity_witness :
    ∃ M : MathToolbox ℝ, M.sqrt = Real.sqrt ∧ M.cos = Real.cos ∧ M.sin = Real.sin ∧
      ∀ t : ℝ, HasDerivAt
        (fun τ : ℝ => (getQuaternion M Linear_Traj.interface
          ({ _initial_quat := ⟨0, ⟨1, 0, 0⟩⟩, _axis := ⟨0, 0, 1⟩, _traj_theta := ⟨0, 1, 0, 2⟩ } :
            Rotation_Const_Axis_Traj ℝ (Linear_Traj ℝ)) τ).s)
        (UnitQuaternion.scale (1 / 2)
          (UnitQuaternion.mul
            ⟨0, getVelocity Linear_Traj.interface
              ({ _initial_quat := ⟨0, ⟨1, 0, 0⟩⟩, _axis := ⟨0, 0, 1⟩,
                 _traj_theta := ⟨0, 1, 0, 2⟩ } : Rotation_Const_Axis_Traj ℝ (Linear_Traj ℝ)) t⟩
            (getQuaternion M Linear_Traj.interface
              ({ _initial_quat := ⟨0, ⟨1, 0, 0⟩⟩, _axis := ⟨0, 0, 1⟩,
                 _traj_theta := ⟨0, 1, 0, 2⟩ } : Rotation_Const_Axis_Traj ℝ (Linear_Traj ℝ))
              t))).s t := by
  refine ⟨MathToolbox.mk Real.sqrt Real.cos Real.sin (fun q => ⟨0, q.v⟩)
    (fun _ => UnitQuaternion.identity), rfl, rfl, rfl, fun t => ?_⟩
  have hθ : HasDerivAt
      (fun τ : ℝ => Linear_Traj.interface.getPosition (⟨0, 1, 0, 2⟩ : Linear_Traj ℝ) τ)
      (Linear_Traj.interface.getVelocity (⟨0, 1, 0, 2⟩ : Linear_Traj ℝ) t) t :=
    hasDerivAt_of_eq ((((hasDerivAt_id t).sub_const (0 : ℝ)).const_mul (2 : ℝ)).const_add (0 : ℝ))
      (fun _ => rfl) (by norm_num [Linear_Traj.interface])
  exact (getVelocity_is_angular_velocity
    (MathToolbox.mk Real.sqrt Real.cos Real.sin (fun q => ⟨0, q.v⟩)
      (fun _ => UnitQuaternion.identity)) rfl rfl rfl Linear_Traj.interface
    ({ _initial_quat := ⟨0, ⟨1, 0, 0⟩⟩, _axis := ⟨0, 0, 1⟩, _traj_theta := ⟨0, 1, 0, 2⟩ } :
      Rotation_Const_Axis_Traj ℝ (Linear_Traj ℝ))
    (Or.inl (by simp [Vector3.norm, Vector3.dot])) t hθ).1

end Kinematics

end sun
